import Mathlib

set_option maxHeartbeats 1000000

/-- Interned identifier handle. In the source (`identifier.rs`) an `Identifier` holds a
content hash with a process-wide reverse map recovering the text; absent hash collisions
(the accepted risk of spec section 9) the handle is in bijection with the text, so the
runtime embedding uses the text itself as the handle. The faithful hash-based model is
in namespace `Interner` below. -/
structure Identifier where
  text : String
deriving DecidableEq, Repr

/-- Triple identifying one operator overload, from `identifier.rs`. -/
structure OperatorIdentifier where
  op : Identifier
  left : Identifier
  right : Identifier
deriving DecidableEq, Repr

/-- Field declaration, from `fru_type.rs` (`FruField`). -/
structure FruField where
  is_public : Bool
  ident : Identifier
  type_ident : Option Identifier
deriving DecidableEq, Repr

/-- Type flavor tag, from `fru_type.rs` (`TypeFlavor`). -/
inductive TypeFlavor where
  | Struct
  | Class
  | Data
deriving DecidableEq, Repr

mutual

/-- Runtime value. Modelled from the spec section 3 (`fru_value.rs` is not under src/):
tagged union of Unit (Nah), Number, Boolean, Text, Function, TypeDescriptor, Object and
NativeValue. The f64 payload of Number is modelled as Int (no claim depends on float
arithmetic); a native value is represented by its stable uid. -/
inductive FruValue where
  | Nah : FruValue
  | Number : Int → FruValue
  | Bool : Bool → FruValue
  | String : String → FruValue
  | Function : FruFunction → FruValue
  | Type : FruType → FruValue
  | Object : FruObject → FruValue
  | Native : Nat → FruValue

/-- Function value: parameter list, body, captured scope (spec section 3, `fru_function.rs`
not under src/). -/
inductive FruFunction where
  | mk : List Identifier → FruStatement → Scope → FruFunction

/-- Object instance: its type and the field values in declaration order (spec section 3,
`fru_object.rs` not under src/). -/
inductive FruObject where
  | mk : FruType → List FruValue → FruObject

/-- Type descriptor, from `fru_type.rs` (`FruTypeInternal`); the `Rc` indirection of
`FruType` is dropped and the `RefCell`-held tables are threaded as explicit state by the
operations below. Fields in order: ident, type_flavor, fields, static_fields, properties,
static_properties, methods, static_methods, operators, scope, uid. The `HashMap`s are
modelled as insertion-ordered association lists. -/
inductive FruType where
  | mk : Identifier → TypeFlavor → List FruField →
      List (Identifier × FruValue) →
      List (Identifier × Property) →
      List (Identifier × Property) →
      List (Identifier × FruFunction) →
      List (Identifier × FruFunction) →
      List (OperatorIdentifier × AnyOperator) →
      Scope → Nat → FruType

/-- Computed property, from `fru_type.rs` (`Property`): optional getter expression and
optional setter (value-parameter name, body). -/
inductive Property where
  | mk : Identifier → Option FruExpression → Option (Identifier × FruStatement) → Property

/-- Operator table entry. Modelled from the spec section 3 (`operator.rs` is not under
src/): like a Function, plus a commutative flag. -/
inductive AnyOperator where
  | mk : Bool → FruFunction → AnyOperator

/-- Variable scope. Modelled from the spec section 3 (`scope.rs` is not under src/): a
frame of name-to-value bindings, an optional tag binding the scope to a TypeDescriptor
(static context), and an optional parent frame. -/
inductive Scope where
  | mk : List (Identifier × FruValue) → Option FruType → Option Scope → Scope

/-- Evaluator expression tree, from the construction sites in `tree_sitter_parser.rs`
and spec section 4.2 (`expression.rs` is not under src/). -/
inductive FruExpression where
  | Literal : FruValue → FruExpression
  | Variable : Identifier → FruExpression
  | Block : List FruStatement → FruExpression → FruExpression
  | Call : FruExpression → List FruExpression → FruExpression
  | CurryCall : FruExpression → List FruExpression → FruExpression
  | Binary : Identifier → FruExpression → FruExpression → FruExpression
  | Function : List Identifier → FruStatement → FruExpression
  | Instantiation : FruExpression → List FruExpression → FruExpression
  | FieldAccess : FruExpression → Identifier → FruExpression
  | If : FruExpression → FruExpression → FruExpression → FruExpression

/-- Evaluator statement tree, from the construction sites in `tree_sitter_parser.rs`
and spec section 4.2 (`statement.rs` is not under src/). The `Operator` constructor
carries ident, commutative, left_ident, left_type_ident, right_ident, right_type_ident,
body; the `Type` constructor carries type_type, ident, fields, static_fields, watches,
methods, static_methods. -/
inductive FruStatement where
  | Block : List FruStatement → FruStatement
  | Expression : FruExpression → FruStatement
  | Let : Identifier → FruExpression → FruStatement
  | Set : Identifier → FruExpression → FruStatement
  | SetField : FruExpression → Identifier → FruExpression → FruStatement
  | If : FruExpression → FruStatement → Option FruStatement → FruStatement
  | While : FruExpression → FruStatement → FruStatement
  | Return : FruExpression → FruStatement
  | Break : FruStatement
  | Continue : FruStatement
  | Operator : Identifier → Bool → Identifier → Identifier → Identifier → Identifier →
      FruStatement → FruStatement
  | Type : TypeFlavor → Identifier → List FruField →
      List (FruField × Option FruExpression) →
      List (List Identifier × FruStatement) →
      List (Identifier × List Identifier × FruStatement) →
      List (Identifier × List Identifier × FruStatement) → FruStatement

end

def FruType.ident : FruType → Identifier
  | .mk i _ _ _ _ _ _ _ _ _ _ => i

def FruType.type_flavor : FruType → TypeFlavor
  | .mk _ f _ _ _ _ _ _ _ _ _ => f

def FruType.fields : FruType → List FruField
  | .mk _ _ f _ _ _ _ _ _ _ _ => f

def FruType.static_fields : FruType → List (Identifier × FruValue)
  | .mk _ _ _ sf _ _ _ _ _ _ _ => sf

def FruType.properties : FruType → List (Identifier × Property)
  | .mk _ _ _ _ p _ _ _ _ _ _ => p

def FruType.static_properties : FruType → List (Identifier × Property)
  | .mk _ _ _ _ _ sp _ _ _ _ _ => sp

def FruType.methods : FruType → List (Identifier × FruFunction)
  | .mk _ _ _ _ _ _ m _ _ _ _ => m

def FruType.static_methods : FruType → List (Identifier × FruFunction)
  | .mk _ _ _ _ _ _ _ sm _ _ _ => sm

def FruType.operators : FruType → List (OperatorIdentifier × AnyOperator)
  | .mk _ _ _ _ _ _ _ _ ops _ _ => ops

def FruType.scope : FruType → Scope
  | .mk _ _ _ _ _ _ _ _ _ s _ => s

def FruType.uid : FruType → Nat
  | .mk _ _ _ _ _ _ _ _ _ _ u => u

def FruFunction.parameters : FruFunction → List Identifier
  | .mk p _ _ => p

def FruFunction.body : FruFunction → FruStatement
  | .mk _ b _ => b

def FruFunction.scope : FruFunction → Scope
  | .mk _ _ s => s

def Property.ident : Property → Identifier
  | .mk i _ _ => i

def Property.getter : Property → Option FruExpression
  | .mk _ g _ => g

def Property.setter : Property → Option (Identifier × FruStatement)
  | .mk _ _ s => s

def Scope.vars : Scope → List (Identifier × FruValue)
  | .mk v _ _ => v

def Scope.typeTag : Scope → Option FruType
  | .mk _ t _ => t

def Scope.parent : Scope → Option Scope
  | .mk _ _ p => p

/-- Association-list lookup, the embedding of `HashMap::get`. -/
def lookupA {κ α : Type} [DecidableEq κ] : List (κ × α) → κ → Option α
  | [], _ => none
  | (k, v) :: rest, i => if k = i then some v else lookupA rest i

/-- Association-list in-place update, the embedding of `HashMap::get_mut` plus
assignment (updates the stored value at an existing key, keeps everything else). -/
def updateA {κ α : Type} [DecidableEq κ] : List (κ × α) → κ → α → List (κ × α)
  | [], _, _ => []
  | (k, v) :: rest, i, nv => if k = i then (k, nv) :: rest else (k, v) :: updateA rest i nv

/-- Association-list removal, the embedding of `HashMap::remove`: the removed value
(if any) together with the remaining map. -/
def removeA {κ α : Type} [DecidableEq κ] : List (κ × α) → κ → Option α × List (κ × α)
  | [], _ => (none, [])
  | (k, v) :: rest, i =>
    if k = i then (some v, rest)
    else
      let r := removeA rest i
      (r.1, (k, v) :: r.2)

/-- Errors are human-readable messages (spec section 7); `error.rs` is not under src/,
and `fru_err_res!` formats a message string, embedded here by string concatenation. -/
def FruError : Type := String

instance : DecidableEq FruError := inferInstanceAs (DecidableEq String)

/-- Modelled from the spec: `calculate_precedence` lives in `value/operator.rs`, which is
not under src/. Spec section 4.2: each operator token maps via a static table to an
integer precedence band, ties allowed (for example `*`, `/`, `%` share one band); the
lowering loop in `tree_sitter_parser.rs` iterates the collected bands in ascending
integer order, and spec section 8 requires that with bands containing `+`,`-` and
`*`,`/` the multiplicative band is reduced first (yielding `(2 + (3*4)) - 1`), so the
tighter-binding multiplicative band carries the smaller integer. -/
def calculate_precedence (op : String) : Int :=
  if op = "**" then 0
  else if op = "*" ∨ op = "/" ∨ op = "%" then 1
  else if op = "+" ∨ op = "-" then 2
  else if op = "<" ∨ op = "<=" ∨ op = ">" ∨ op = ">=" then 3
  else if op = "==" ∨ op = "!=" then 4
  else if op = "&&" then 5
  else if op = "||" then 6
  else 7

/-- Element of the flat binary-expression sequence, from the local `enum Elem` inside
the `binaries_expression` arm of `parse_expression` in `tree_sitter_parser.rs`. -/
inductive Elem where
  | Expr : FruExpression → Elem
  | BinOp : Identifier → Int → Elem

/-- One left-to-right cursor pass of the reduction loop in the `binaries_expression` arm
(`tree_sitter_parser.rs` lines 313-350) for one target precedence. `prev` is the element
just before the cursor, `rest` the elements from the cursor on, `acc` the (reversed)
elements before `prev`. When the cursor sits on a `BinOp` of the target precedence the
code removes the element before it and the two elements from the cursor on, inserts the
combined binary expression before the cursor, and continues with the cursor on the
element after the removed right operand; `none` models the `panic!`/`unwrap` aborts
(left or right neighbour not an expression, or no right neighbour). -/
def passAux (p : Int) (prev : Elem) (rest : List Elem) (acc : List Elem) :
    Option (List Elem) :=
  match rest with
  | [] => some (acc.reverse ++ [prev])
  | cur :: rest2 =>
    match cur with
    | .BinOp op q =>
      if q = p then
        match prev, rest2 with
        | .Expr l, .Expr r :: rest3 =>
          passAux p (.Expr (.Binary op l r)) rest3 acc
        | _, _ => none
      else passAux p (.BinOp op q) rest2 (prev :: acc)
    | .Expr e => passAux p (.Expr e) rest2 (prev :: acc)

/-- One whole-list pass for one target precedence: the cursor starts on the second
element (`cursor_front_mut` then `move_next`). -/
def bandPass (p : Int) (l : List Elem) : Option (List Elem) :=
  match l with
  | [] => some []
  | e :: rest => passAux p e rest []

/-- Precedences of the operators of the sequence, in sequence order. -/
def precsOf (l : List Elem) : List Int :=
  l.filterMap fun e =>
    match e with
    | .BinOp _ q => some q
    | .Expr _ => none

/-- Sorted-set insertion, the embedding of `BTreeSet::insert`. -/
def insertSorted (x : Int) : List Int → List Int
  | [] => [x]
  | y :: ys =>
    if x < y then x :: y :: ys
    else if x = y then y :: ys
    else y :: insertSorted x ys

/-- The `all_precedences` set of the lowering loop: every operator precedence of the
sequence, iterated in ascending order (`BTreeSet` iteration order). -/
def sortedPrecs (l : List Elem) : List Int :=
  (precsOf l).foldl (fun acc q => insertSorted q acc) []

/-- The binary-expression lowering of `tree_sitter_parser.rs` lines 285-356: for each
collected precedence in ascending order run one left-to-right reduction pass, then pop
the single remaining element, which must be an expression. `none` models the
`panic!`/`unwrap` aborts. -/
def resolveBinaries (l : List Elem) : Option FruExpression := do
  let final ← (sortedPrecs l).foldlM (fun cur p => bandPass p cur) l
  match final with
  | .Expr e :: _ => some e
  | _ => none

/-- Shorthand building the sequence elements exactly as the lowering loop does: a parsed
operand becomes `Elem.Expr`, an operator token becomes `Elem.BinOp` of its interned
identifier and its `calculate_precedence`. -/
def mkNum (n : Int) : Elem := .Expr (.Literal (.Number n))

def mkOp (s : String) : Elem := .BinOp ⟨s⟩ (calculate_precedence s)


/-- Written from the claim's words (spec section 4.2): reduce the leftmost adjacent
`expr op expr` triple whose operator belongs to the precedence band `p`, replacing the
triple with a single binary-expression node; `none` when no such triple exists. -/
def specStep (p : Int) : List Elem → Option (List Elem)
  | .Expr a :: .BinOp op q :: rest =>
    (match rest with
     | .Expr r :: rest2 =>
       if q = p then some (.Expr (.Binary op a r) :: rest2)
       else (specStep p rest).map fun t => .Expr a :: .BinOp op q :: t
     | _ => none)
  | _ => none

/-- Written from the claim's words: repeatedly reduce triples of band `p` until none
remains; the fuel bounds the number of reductions (each one shortens the list). -/
def specBand (p : Int) (fuel : Nat) (l : List Elem) : List Elem :=
  match fuel with
  | 0 => l
  | fuel + 1 =>
    match specStep p l with
    | none => l
    | some l2 => specBand p fuel l2

/-- Reduce band `p` to its normal form (the list length is always enough fuel). -/
def specBandRun (p : Int) (l : List Elem) : List Elem :=
  specBand p l.length l

/-- Written from the claim's words: reduce the sequence band by band, in the stated
band order, each band by repeated left-to-right triple replacement. -/
def specReduce (bands : List Int) (l : List Elem) : List Elem :=
  bands.foldl (fun cur p => specBandRun p cur) l

/-- The claim's stated band order, lowest binding power first: with the precedence table
of `calculate_precedence`, a smaller integer means tighter binding (higher binding
power), so lowest binding power first is descending integer order. -/
def specReduceLowestBindingFirst (l : List Elem) : List Elem :=
  specReduce (sortedPrecs l).reverse l

/-- The band order the code implements, highest binding power first: ascending integer
order, i.e. the `BTreeSet` iteration order of the lowering loop. -/
def specReduceHighestBindingFirst (l : List Elem) : List Elem :=
  specReduce (sortedPrecs l) l

/-- Well-formed flat input of the lowering: an alternating sequence
`expr, op, expr, …, expr`, as produced by the `binaries_expression` grammar node. -/
inductive Alt : List Elem → Prop where
  | single (e : FruExpression) : Alt [Elem.Expr e]
  | cons (e : FruExpression) (op : Identifier) (q : Int) (rest : List Elem) :
      Alt rest → Alt (Elem.Expr e :: Elem.BinOp op q :: rest)


/-- Evaluated argument list. Modelled from the spec and the use sites
(`function_helpers.rs` is not under src/): each argument is either named
(`some ident`) or positional (`none`), paired with its evaluated value. -/
structure EvaluatedArgumentList where
  args : List (Option Identifier × FruValue)

/-- The first `for` loop of `FruType::instantiate` (`fru_type.rs` lines 211-220):
assign each argument in order; a positional argument at overall index `n` takes the
name of the field at index `n` (`fields[n]`, which panics when out of bounds —
modelled by `none`); inserting a name already present yields the duplicate error.  -/
def instantiateLoop (fields : List FruField) :
    List (Option Identifier × FruValue) → Nat → List (Identifier × FruValue) →
    Option (Except FruError (List (Identifier × FruValue)))
  | [], _, obj => some (.ok obj)
  | (identOpt, v) :: rest, n, obj =>
    match (match identOpt with
           | some i => some i
           | none => (fields[n]?).map FruField.ident) with
    | none => none
    | some i =>
      if (lookupA obj i).isSome then
        some (.error ("field `" ++ i.text ++ "` is set more than once"))
      else instantiateLoop fields rest (n + 1) (obj ++ [(i, v)])

/-- The second `for` loop of `FruType::instantiate` (`fru_type.rs` lines 224-229):
take each declared field's value out of the map in declaration order, failing with the
missing-field error at the first field that has no value; returns the values in order
together with the leftover map. -/
def fillFields : List FruField → List (Identifier × FruValue) →
    Except FruError (List FruValue × List (Identifier × FruValue))
  | [], obj => .ok ([], obj)
  | f :: fs, obj =>
    let r := removeA obj f.ident
    match r.1 with
    | some v => (fillFields fs r.2).map fun p => (v :: p.1, p.2)
    | none => .error ("missing field `" ++ f.ident.text ++ "`")

/-- `FruType::instantiate` (`fru_type.rs` lines 206-236). The outer `Option` models
panicking (`none` = the process aborts on an out-of-bounds `fields[n]`); the inner
`Except` is the function's `Result`. After the fill loop, any leftover key in the
argument map is reported as an unknown field (`obj_fields.keys().next()`). -/
def FruType.instantiate (t : FruType) (args : EvaluatedArgumentList) :
    Option (Except FruError FruValue) :=
  match instantiateLoop t.fields args.args 0 [] with
  | none => none
  | some (.error e) => some (.error e)
  | some (.ok objFields) =>
    match fillFields t.fields objFields with
    | .error e => some (.error e)
    | .ok (vals, leftover) =>
      match leftover with
      | (i, _) :: _ => some (.error ("field `" ++ i.text ++ "` does not exist"))
      | [] => some (.ok (FruValue.Object (FruObject.mk t vals)))

/-- Modelled from the spec: `Scope::new_with_type` (`scope.rs` is not under src/)
creates a fresh scope bound to the given TypeDescriptor (spec sections 3 and 4.3, a
"synthetic type-bound scope"). -/
def Scope.new_with_type (t : FruType) : Scope := Scope.mk [] (some t) none

/-- Modelled from the spec: `Scope::let_variable` (`scope.rs` is not under src/)
creates a new binding in this innermost frame (spec section 4.4); redeclaring a name
already bound in the same frame is an error. -/
def Scope.let_variable (s : Scope) (i : Identifier) (v : FruValue) :
    Except FruError Scope :=
  if (lookupA s.vars i).isSome then
    .error ("variable `" ++ i.text ++ "` is already declared")
  else .ok (Scope.mk (s.vars ++ [(i, v)]) s.typeTag s.parent)

/-- `FruType::get_prop` (`fru_type.rs` lines 137-161), static member read. The
evaluation of a getter expression (`returned(getter.evaluate(new_scope))`, whose
evaluator and control modules are not under src/) is abstracted by the `evalGetter`
parameter. Resolution: static field, then static property, then static method, else
the not-found error. -/
def FruType.get_prop (evalGetter : FruExpression → Scope → Except FruError FruValue)
    (t : FruType) (ident : Identifier) : Except FruError FruValue :=
  match lookupA t.static_fields ident with
  | some field => .ok field
  | none =>
    match lookupA t.static_properties ident with
    | some property =>
      (match property.getter with
       | some getter => evalGetter getter (Scope.new_with_type t)
       | none => .error ("static property `" ++ ident.text ++ "` has no getter"))
    | none =>
      match lookupA t.static_methods ident with
      | some static_method =>
        .ok (FruValue.Function (FruFunction.mk static_method.parameters
          static_method.body (Scope.new_with_type t)))
      | none => .error ("static prop `" ++ ident.text ++ "` not found")

/-- `FruType::set_prop` (`fru_type.rs` lines 163-184), static member write. The
execution of a setter statement (`returned_nothing(setter.execute(new_scope))`) is
abstracted by the `execSetter` parameter. The mutable static-field store is threaded
explicitly: the result pairs the `Result<(), FruError>` with the store after the call.
Resolution: static field (direct write), then static property setter run in a fresh
type-bound scope with the value bound to the setter's parameter, else the not-found
error; static methods are never consulted on the write path. -/
def FruType.set_prop (execSetter : FruStatement → Scope → Except FruError Unit)
    (t : FruType) (ident : Identifier) (value : FruValue) :
    Except FruError Unit × List (Identifier × FruValue) :=
  match lookupA t.static_fields ident with
  | some _ => (.ok (), updateA t.static_fields ident value)
  | none =>
    match lookupA t.static_properties ident with
    | some property =>
      ((match property.setter with
        | some (vi, setter) =>
          (match Scope.let_variable (Scope.new_with_type t) vi value with
           | .ok new_scope => execSetter setter new_scope
           | .error e => .error e)
        | none => .error ("static property `" ++ ident.text ++ "` has no setter")),
       t.static_fields)
    | none => (.error ("static prop `" ++ ident.text ++ "` not found"), t.static_fields)

/-- `FruType::set_operator` (`fru_type.rs` lines 190-204): `Entry::Occupied` fails with
the duplicate-registration error and leaves the table untouched, `Entry::Vacant`
inserts. The `RefCell`-held table is threaded explicitly: the result pairs the
`Result<(), FruError>` with the table after the call. -/
def FruType.set_operator (t : FruType) (ident : OperatorIdentifier)
    (value : AnyOperator) :
    Except FruError Unit × List (OperatorIdentifier × AnyOperator) :=
  match lookupA t.operators ident with
  | some _ => (.error ("operator `" ++ ident.op.text ++ "` is already set"), t.operators)
  | none => (.ok (), t.operators ++ [(ident, value)])

/-- Modelled from the spec: `Scope::get_variable` (`scope.rs` is not under src/) walks
the frame chain outward and fails when the name is bound nowhere (spec section 3). -/
def Scope.get_variable : Scope → Identifier → Except FruError FruValue
  | .mk vars _ none, i =>
    ((lookupA vars i).map Except.ok).getD
      (.error ("variable `" ++ i.text ++ "` does not exist"))
  | .mk vars _ (some p), i =>
    ((lookupA vars i).map Except.ok).getD (p.get_variable i)

/-- Spec-side scope lookup (spec section 3): the binding of the innermost frame that
holds the name, walking outward. -/
def lookupVar : Scope → Identifier → Option FruValue
  | .mk vars _ none, i => lookupA vars i
  | .mk vars _ (some p), i =>
    if (lookupA vars i).isSome then lookupA vars i else lookupVar p i

/-- Modelled from the spec: whether some frame of the chain binds the name. -/
def Scope.has_variable : Scope → Identifier → Bool
  | .mk vars _ none, i => (lookupA vars i).isSome
  | .mk vars _ (some p), i => (lookupA vars i).isSome || p.has_variable i

/-- Modelled from the spec: mutate the innermost binding of an existing name, walking
outward (spec section 3, lookup/mutation walk outward). -/
def Scope.setExisting : Scope → Identifier → FruValue → Scope
  | .mk vars tag none, i, v =>
    if (lookupA vars i).isSome then Scope.mk (updateA vars i v) tag none
    else Scope.mk vars tag none
  | .mk vars tag (some p), i, v =>
    if (lookupA vars i).isSome then Scope.mk (updateA vars i v) tag (some p)
    else Scope.mk vars tag (some (p.setExisting i v))

/-- Modelled from the spec: `Scope::let_set_variable` (`scope.rs` is not under src/),
the assignment used by the scope-as-value boundary (spec section 6): assign the
variable in the wrapped scope — mutate the existing binding when the name is bound
somewhere on the chain, otherwise create the binding in the innermost frame. -/
def Scope.let_set_variable (s : Scope) (i : Identifier) (v : FruValue) : Scope :=
  if s.has_variable i then s.setExisting i v
  else Scope.mk (s.vars ++ [(i, v)]) s.typeTag s.parent

/-- The native scope wrapper of `builtin_scope_instance.rs` (`BuiltinScopeInstance`):
a scope exposed as a native value. -/
structure BuiltinScopeInstance where
  scope : Scope

/-- `INativeObject::get_prop` for `BuiltinScopeInstance`
(`builtin_scope_instance.rs` lines 40-42): delegate to `Scope::get_variable`. -/
def BuiltinScopeInstance.get_prop (b : BuiltinScopeInstance) (i : Identifier) :
    Except FruError FruValue :=
  b.scope.get_variable i

/-- `INativeObject::set_prop` for `BuiltinScopeInstance`
(`builtin_scope_instance.rs` lines 44-47): delegate to `Scope::let_set_variable` and
return `Ok(())`; the mutated wrapped scope is returned explicitly. -/
def BuiltinScopeInstance.set_prop (b : BuiltinScopeInstance) (i : Identifier)
    (v : FruValue) : Except FruError Unit × BuiltinScopeInstance :=
  (.ok (), ⟨b.scope.let_set_variable i v⟩)

namespace Interner

/-- The process-wide reverse table `BACKWARDS_MAP` of `identifier.rs`, mapping a hash
to the first text interned under it; threaded explicitly as state. -/
abbrev BackwardsMap : Type := List (Nat × String)

/-- Interned identifier as in `identifier.rs`: only the content hash is stored. -/
structure Identifier where
  hashed_ident : Nat
deriving DecidableEq, Repr

/-- The `entry(hash).or_insert_with(|| ident.to_string())` step of `Identifier::new`:
record the text under the hash only when the hash is not yet present. -/
def orInsert (m : BackwardsMap) (h : Nat) (s : String) : BackwardsMap :=
  match lookupA m h with
  | some _ => m
  | none => m ++ [(h, s)]

/-- `Identifier::new` (`identifier.rs` lines 23-38): hash the text, record the reverse
mapping, return the handle holding the hash. The hash algorithm (`DefaultHasher`) is
external to the repository, so the embedding is parameterized by an arbitrary hash
function; every theorem below holds for all of them. -/
def Identifier.new (hash : String → Nat) (ident : String) (m : BackwardsMap) :
    Identifier × BackwardsMap :=
  let h := hash ident
  (⟨h⟩, orInsert m h ident)

/-- The `Display` impl for `Identifier` (`identifier.rs` lines 52-58): look the hash up
in the reverse table; the `unwrap` abort is modelled by `none`. -/
def display (m : BackwardsMap) (i : Identifier) : Option String :=
  lookupA m i.hashed_ident

end Interner

/-- A node of the externally produced concrete syntax tree, at the boundary the
lowering consumes (spec section 6): a grammar node kind, the named child slots in
order (each child optionally labelled with its field name), and the node's source
text (`utf8_text`). -/
structure CST where
  kind : String
  children : List (Option String × CST)
  text : String

/-- The embedding of `tree_sitter::Node::child_by_field_name`: the first child
carrying the field name. -/
def CST.childByFieldName (c : CST) (f : String) : Option CST :=
  (c.children.find? fun x => x.1 = some f).map Prod.snd

/-- The embedding of `tree_sitter::Node::children_by_field_name`: all children
carrying the field name, in order. -/
def CST.childrenByFieldName (c : CST) (f : String) : List CST :=
  (c.children.filter fun x => x.1 = some f).map Prod.snd

/-- The embedding of `tree_sitter::Node::named_child(i)`: the children in order
(the model carries only named children). -/
def CST.namedChildren (c : CST) : List CST :=
  c.children.map Prod.snd

/-- The embedding of `tree_sitter::Node::child(0)`, used by the `variable` arm. -/
def CST.child0 (c : CST) : Option CST :=
  (c.children.head?).map Prod.snd

/-- Value of one decimal digit character. -/
def digitVal (c : Char) : Option Nat :=
  if c = '0' then some 0 else if c = '1' then some 1 else if c = '2' then some 2
  else if c = '3' then some 3 else if c = '4' then some 4 else if c = '5' then some 5
  else if c = '6' then some 6 else if c = '7' then some 7 else if c = '8' then some 8
  else if c = '9' then some 9 else none

/-- Decimal value of a digit sequence; fails on any non-digit. -/
def digitsValGo : List Char → Nat → Option Nat
  | [], acc => some acc
  | c :: rest, acc =>
    match digitVal c with
    | some d => digitsValGo rest (acc * 10 + d)
    | none => none

/-- The `parse::<f64>().unwrap()` of the `number_literal` arm; numbers are modelled
as Int (see `FruValue`; no claim depends on non-integer literals), and a failed parse
is the fatal `unwrap` abort. -/
def parseNumberText (s : String) : Option Int :=
  match s.toList with
  | [] => none
  | '-' :: rest =>
    match rest with
    | [] => none
    | _ :: _ => (digitsValGo rest 0).map fun n => -(n : Int)
  | l => (digitsValGo l 0).map fun n => (n : Int)

/-- The `parse::<bool>().unwrap()` of the `bool_literal` arm. -/
def parseBoolText (s : String) : Option Bool :=
  if s = "true" then some true else if s = "false" then some false else none

/-- The `s[1..s.len() - 1]` quote stripping of the `string_literal` arm. -/
def stripQuotes (s : String) : String :=
  String.mk ((s.toList.drop 1).dropLast)

/-- The `TryInto<TypeFlavor>` conversion used by the `type_statement` arm. Modelled
from the spec (the impl is not under src/): the flavor keyword text maps to the
Struct/Class/Data tag, anything else is the fatal `unwrap` abort. -/
def flavorOfText (s : String) : Option TypeFlavor :=
  if s = "struct" then some TypeFlavor.Struct
  else if s = "class" then some TypeFlavor.Class
  else if s = "data" then some TypeFlavor.Data
  else none

/-- Any-field result of `parse_field` (`AnyField` in `tree_sitter_parser.rs`). -/
inductive AnyField where
  | Normal : FruField → AnyField
  | Static : FruField × Option FruExpression → AnyField

/-- Section result of `parse_section` (`TypeSection` in `tree_sitter_parser.rs`). -/
inductive TypeSection where
  | Impl : List (Identifier × List Identifier × FruStatement) → TypeSection
  | Static : List (Identifier × List Identifier × FruStatement) → TypeSection
  | Constraints : List (List Identifier × FruStatement) → TypeSection

/-- The field-splitting loop of the `type_statement` arm (`tree_sitter_parser.rs`
lines 191-200): normal fields and static fields, each kept in order. -/
def splitFields : List AnyField → List FruField × List (FruField × Option FruExpression)
  | [] => ([], [])
  | AnyField.Normal f :: rest =>
    let r := splitFields rest
    (f :: r.1, r.2)
  | AnyField.Static sf :: rest =>
    let r := splitFields rest
    (r.1, sf :: r.2)

/-- The section-gathering loop of the `type_statement` arm (`tree_sitter_parser.rs`
lines 202-212): methods, static methods and watches, extended in section order. -/
def gatherSections : List TypeSection →
    List (Identifier × List Identifier × FruStatement) ×
    List (Identifier × List Identifier × FruStatement) ×
    List (List Identifier × FruStatement)
  | [] => ([], [], [])
  | TypeSection.Impl x :: rest =>
    let r := gatherSections rest
    (x ++ r.1, r.2.1, r.2.2)
  | TypeSection.Static x :: rest =>
    let r := gatherSections rest
    (r.1, x ++ r.2.1, r.2.2)
  | TypeSection.Constraints x :: rest =>
    let r := gatherSections rest
    (r.1, r.2.1, x ++ r.2.2)

mutual

/-- `parse_statement` of `tree_sitter_parser.rs` (lines 42-227). The lowering has no
recoverable-error channel: it returns a statement or aborts the process, and every
abort (`unimplemented!` on an unrecognized node kind, `panic!` in the
`set_field_statement` arm, every `unwrap`) is modelled by `none`. The fuel only bounds
recursion depth; every arm is dispatched before fuel is consumed. -/
def parse_statement : Nat → CST → Option FruStatement
  | 0, _ => none
  | fuel + 1, ast =>
    if ast.kind = "source_file" then
      (parseStatementList fuel (ast.childrenByFieldName "body")).map FruStatement.Block
    else if ast.kind = "block_statement" then
      (parseStatementList fuel (ast.childrenByFieldName "body")).map FruStatement.Block
    else if ast.kind = "expression_statement" then do
      let vc ← ast.childByFieldName "value"
      let v ← parse_expression fuel vc
      some (FruStatement.Expression v)
    else if ast.kind = "let_statement" then do
      let ic ← ast.childByFieldName "ident"
      let vc ← ast.childByFieldName "value"
      let v ← parse_expression fuel vc
      some (FruStatement.Let ⟨ic.text⟩ v)
    else if ast.kind = "set_statement" then do
      let ic ← ast.childByFieldName "ident"
      let vc ← ast.childByFieldName "value"
      let v ← parse_expression fuel vc
      some (FruStatement.Set ⟨ic.text⟩ v)
    else if ast.kind = "set_field_statement" then do
      let wc ← ast.childByFieldName "what"
      let vc ← ast.childByFieldName "value"
      let what ← parse_expression fuel wc
      let value ← parse_expression fuel vc
      match what with
      | .FieldAccess w f => some (FruStatement.SetField w f value)
      | _ => none
    else if ast.kind = "if_statement" then do
      let cc ← ast.childByFieldName "condition"
      let tc ← ast.childByFieldName "then_body"
      let cond ← parse_expression fuel cc
      let thenBody ← parse_statement fuel tc
      match ast.childByFieldName "else_body" with
      | some ec => do
        let elseBody ← parse_statement fuel ec
        some (FruStatement.If cond thenBody (some elseBody))
      | none => some (FruStatement.If cond thenBody none)
    else if ast.kind = "while_statement" then do
      let cc ← ast.childByFieldName "condition"
      let bc ← ast.childByFieldName "body"
      let cond ← parse_expression fuel cc
      let body ← parse_statement fuel bc
      some (FruStatement.While cond body)
    else if ast.kind = "return_statement" then
      match ast.childByFieldName "value" with
      | none => some (FruStatement.Return (FruExpression.Literal FruValue.Nah))
      | some vc => (parse_expression fuel vc).map FruStatement.Return
    else if ast.kind = "break_statement" then some FruStatement.Break
    else if ast.kind = "continue_statement" then some FruStatement.Continue
    else if ast.kind = "operator_statement" then do
      let ic ← ast.childByFieldName "ident"
      let lc ← ast.childByFieldName "left_ident"
      let ltc ← ast.childByFieldName "left_type_ident"
      let rc ← ast.childByFieldName "right_ident"
      let rtc ← ast.childByFieldName "right_type_ident"
      let bc ← ast.childByFieldName "body"
      let body ← parse_function_body fuel bc
      some (FruStatement.Operator ⟨ic.text⟩
        (ast.childByFieldName "commutative").isSome
        ⟨lc.text⟩ ⟨ltc.text⟩ ⟨rc.text⟩ ⟨rtc.text⟩ body)
    else if ast.kind = "type_statement" then do
      let ttc ← ast.childByFieldName "type_type"
      let type_type ← flavorOfText ttc.text
      let ic ← ast.childByFieldName "ident"
      let anyFields ← parseFieldList fuel (ast.childrenByFieldName "fields")
      let sections ← parseSectionList fuel (ast.childrenByFieldName "sections")
      let fs := splitFields anyFields
      let ms := gatherSections sections
      some (FruStatement.Type type_type ⟨ic.text⟩ fs.1 fs.2 ms.2.2 ms.1 ms.2.1)
    else none

/-- `parse_expression` of `tree_sitter_parser.rs` (lines 229-417); `none` models every
abort, in particular the fatal `unimplemented!` fallthrough on an unrecognized
expression node kind (lines 411-416). -/
def parse_expression : Nat → CST → Option FruExpression
  | 0, _ => none
  | fuel + 1, ast =>
    if ast.kind = "nah_literal" then some (.Literal .Nah)
    else if ast.kind = "number_literal" then
      (parseNumberText ast.text).map fun n => .Literal (.Number n)
    else if ast.kind = "bool_literal" then
      (parseBoolText ast.text).map fun b => .Literal (.Bool b)
    else if ast.kind = "string_literal" then
      some (.Literal (.String (stripQuotes ast.text)))
    else if ast.kind = "variable" then
      (ast.child0).map fun c => .Variable ⟨c.text⟩
    else if ast.kind = "block_expression" then do
      let body ← parseStatementList fuel (ast.childrenByFieldName "body")
      let ec ← ast.childByFieldName "expr"
      let e ← parse_expression fuel ec
      some (.Block body e)
    else if ast.kind = "call_expression" then do
      let wc ← ast.childByFieldName "what"
      let w ← parse_expression fuel wc
      let args ← parseExpressionList fuel (ast.childrenByFieldName "args")
      some (.Call w args)
    else if ast.kind = "curry_call_expression" then do
      let wc ← ast.childByFieldName "what"
      let w ← parse_expression fuel wc
      let args ← parseExpressionList fuel (ast.childrenByFieldName "args")
      some (.CurryCall w args)
    else if ast.kind = "binaries_expression" then do
      let elems ← buildElems fuel ast.namedChildren 0
      resolveBinaries elems
    else if ast.kind = "function_expression" then do
      let bc ← ast.childByFieldName "body"
      let body ← parse_function_body fuel bc
      some (.Function ((ast.childrenByFieldName "args").map fun c =>
        (⟨c.text⟩ : Identifier)) body)
    else if ast.kind = "instantiation_expression" then do
      let wc ← ast.childByFieldName "what"
      let w ← parse_expression fuel wc
      let args ← parseExpressionList fuel (ast.childrenByFieldName "args")
      some (.Instantiation w args)
    else if ast.kind = "field_access_expression" then do
      let wc ← ast.childByFieldName "what"
      let fc ← ast.childByFieldName "field"
      let w ← parse_expression fuel wc
      some (.FieldAccess w ⟨fc.text⟩)
    else if ast.kind = "if_expression" then do
      let cc ← ast.childByFieldName "condition"
      let tc ← ast.childByFieldName "then_body"
      let ec ← ast.childByFieldName "else_body"
      let cond ← parse_expression fuel cc
      let thenBody ← parse_expression fuel tc
      let elseBody ← parse_expression fuel ec
      some (.If cond thenBody elseBody)
    else none

/-- `parse_function_body` of `tree_sitter_parser.rs` (lines 419-427). -/
def parse_function_body : Nat → CST → Option FruStatement
  | 0, _ => none
  | fuel + 1, ast =>
    if ast.kind = "block_statement" then parse_statement fuel ast
    else if ast.kind = "block_expression" then
      (parse_expression fuel ast).map FruStatement.Return
    else none

/-- `parse_field` of `tree_sitter_parser.rs` (lines 429-458); the `panic!` on a
non-static field with a default value is modelled by `none`. -/
def parse_field : Nat → CST → Option AnyField
  | 0, _ => none
  | fuel + 1, ast => do
    let ic ← ast.childByFieldName "ident"
    let value ←
      (match ast.childByFieldName "value" with
       | some vc => (parse_expression fuel vc).map some
       | none => some none)
    let is_static := (ast.childByFieldName "static").isSome
    if ¬ is_static ∧ value.isSome then none
    else
      let res : FruField :=
        ⟨(ast.childByFieldName "pub").isSome, ⟨ic.text⟩,
          (ast.childByFieldName "type_ident").map fun c => (⟨c.text⟩ : Identifier)⟩
      if is_static then some (AnyField.Static (res, value))
      else some (AnyField.Normal res)

/-- `parse_section` of `tree_sitter_parser.rs` (lines 460-483); the `unimplemented!`
fallthrough is modelled by `none`. -/
def parse_section : Nat → CST → Option TypeSection
  | 0, _ => none
  | fuel + 1, ast =>
    if ast.kind = "type_impl_section" then
      (parseMethodList fuel (ast.childrenByFieldName "methods")).map TypeSection.Impl
    else if ast.kind = "type_static_section" then
      (parseMethodList fuel (ast.childrenByFieldName "methods")).map TypeSection.Static
    else if ast.kind = "type_constraints_section" then
      (parseWatchList fuel (ast.childrenByFieldName "watches")).map
        TypeSection.Constraints
    else none

/-- `parse_method` of `tree_sitter_parser.rs` (lines 485-491). -/
def parse_method : Nat → CST → Option (Identifier × List Identifier × FruStatement)
  | 0, _ => none
  | fuel + 1, ast => do
    let ic ← ast.childByFieldName "ident"
    let bc ← ast.childByFieldName "body"
    let body ← parse_function_body fuel bc
    some (⟨ic.text⟩,
      (ast.childrenByFieldName "args").map fun c => (⟨c.text⟩ : Identifier), body)

/-- `parse_watch` of `tree_sitter_parser.rs` (lines 493-500). -/
def parse_watch : Nat → CST → Option (List Identifier × FruStatement)
  | 0, _ => none
  | fuel + 1, ast => do
    let bc ← ast.childByFieldName "body"
    let body ← parse_statement fuel bc
    some ((ast.childrenByFieldName "args").map fun c => (⟨c.text⟩ : Identifier), body)

/-- Element-building loop of the `binaries_expression` arm (`tree_sitter_parser.rs`
lines 291-311): children at even positions are parsed as expressions, children at odd
positions become `BinOp` elements from the operator text and its precedence. -/
def buildElems : Nat → List CST → Nat → Option (List Elem)
  | 0, _, _ => none
  | _ + 1, [], _ => some []
  | fuel + 1, c :: rest, i =>
    if i % 2 = 0 then do
      let e ← parse_expression fuel c
      let tail ← buildElems fuel rest (i + 1)
      some (Elem.Expr e :: tail)
    else do
      let tail ← buildElems fuel rest (i + 1)
      some (Elem.BinOp ⟨c.text⟩ (calculate_precedence c.text) :: tail)

/-- Mapping `parse_statement` over a child list (the `.map(...).collect()` calls). -/
def parseStatementList : Nat → List CST → Option (List FruStatement)
  | 0, _ => none
  | _ + 1, [] => some []
  | fuel + 1, c :: rest => do
    let s ← parse_statement fuel c
    let tail ← parseStatementList fuel rest
    some (s :: tail)

/-- Mapping `parse_expression` over a child list (the `.map(...).collect()` calls). -/
def parseExpressionList : Nat → List CST → Option (List FruExpression)
  | 0, _ => none
  | _ + 1, [] => some []
  | fuel + 1, c :: rest => do
    let e ← parse_expression fuel c
    let tail ← parseExpressionList fuel rest
    some (e :: tail)

/-- Mapping `parse_field` over the field children. -/
def parseFieldList : Nat → List CST → Option (List AnyField)
  | 0, _ => none
  | _ + 1, [] => some []
  | fuel + 1, c :: rest => do
    let f ← parse_field fuel c
    let tail ← parseFieldList fuel rest
    some (f :: tail)

/-- Mapping `parse_section` over the section children. -/
def parseSectionList : Nat → List CST → Option (List TypeSection)
  | 0, _ => none
  | _ + 1, [] => some []
  | fuel + 1, c :: rest => do
    let s ← parse_section fuel c
    let tail ← parseSectionList fuel rest
    some (s :: tail)

/-- Mapping `parse_method` over the method children. -/
def parseMethodList : Nat → List CST →
    Option (List (Identifier × List Identifier × FruStatement))
  | 0, _ => none
  | _ + 1, [] => some []
  | fuel + 1, c :: rest => do
    let m ← parse_method fuel c
    let tail ← parseMethodList fuel rest
    some (m :: tail)

/-- Mapping `parse_watch` over the watch children. -/
def parseWatchList : Nat → List CST → Option (List (List Identifier × FruStatement))
  | 0, _ => none
  | _ + 1, [] => some []
  | fuel + 1, c :: rest => do
    let w ← parse_watch fuel c
    let tail ← parseWatchList fuel rest
    some (w :: tail)

end

/-- The expression node kinds `parse_expression` recognizes; any other kind falls
through to the fatal `unimplemented!` (`tree_sitter_parser.rs` lines 411-416). -/
def recognizedExpressionKinds : List String :=
  ["nah_literal", "number_literal", "bool_literal", "string_literal", "variable",
   "block_expression", "call_expression", "curry_call_expression",
   "binaries_expression", "function_expression", "instantiation_expression",
   "field_access_expression", "if_expression"]

/-- Whether a lowered expression is a field access (the shape required of the target
of a `set_field_statement`). -/
def FruExpression.isFieldAccess : FruExpression → Bool
  | .FieldAccess _ _ => true
  | _ => false

/-- Whether an error message names a symbol: the symbol's text occurs in the message. -/
def mentions (msg name : String) : Prop :=
  name.toList <:+: msg.toList

instance (msg name : String) : Decidable (mentions msg name) :=
  inferInstanceAs (Decidable (name.toList <:+: msg.toList))

/-- The first declared field that received no value, in declaration order. -/
def firstUnfilled (fields : List FruField) (obj : List (Identifier × FruValue)) :
    Option FruField :=
  fields.find? fun f => (lookupA obj f.ident).isNone

/-- Depth of the scope parent chain (an induction measure). -/
def scopeDepth : Scope → Nat
  | .mk _ _ none => 0
  | .mk _ _ (some p) => scopeDepth p + 1

/-- A trivial getter evaluator (theorems about resolution order hold for every
evaluator; witnesses instantiate it with this one). -/
def trivialEval : FruExpression → Scope → Except FruError FruValue :=
  fun _ _ => .ok FruValue.Nah

/-- A trivial setter executor. -/
def trivialExec : FruStatement → Scope → Except FruError Unit :=
  fun _ _ => .ok ()

/-- A scope with no bindings, used by concrete fixtures. -/
def emptyScope : Scope := Scope.mk [] none none

/-- Concrete fixture: a type named `T` with instance fields `(a, b)` and nothing
else, as in the instantiation examples of spec section 8. -/
def typeAB : FruType :=
  FruType.mk ⟨"T"⟩ TypeFlavor.Struct
    [⟨false, ⟨"a"⟩, none⟩, ⟨false, ⟨"b"⟩, none⟩]
    [] [] [] [] [] [] emptyScope 0

/-- Concrete fixture: a type named `P` with the single instance field `a`. -/
def typeA : FruType :=
  FruType.mk ⟨"P"⟩ TypeFlavor.Struct
    [⟨false, ⟨"a"⟩, none⟩]
    [] [] [] [] [] [] emptyScope 1

/-- Concrete fixture: a type named `Vec` with no members at all. -/
def typeVec : FruType :=
  FruType.mk ⟨"Vec"⟩ TypeFlavor.Struct [] [] [] [] [] [] [] emptyScope 2

/-- Concrete fixture: a type named `S` with a static field `x = 5`. -/
def typeS : FruType :=
  FruType.mk ⟨"S"⟩ TypeFlavor.Struct []
    [(⟨"x"⟩, FruValue.Number 5)]
    [] [] [] [] [] emptyScope 3

/-- Concrete fixture: an operator implementation payload. -/
def dummyOp : AnyOperator :=
  AnyOperator.mk false (FruFunction.mk [] FruStatement.Break emptyScope)

/-- Concrete fixture: a type named `N` with one registered operator
`(+, Number, Number)`. -/
def typeN : FruType :=
  FruType.mk ⟨"N"⟩ TypeFlavor.Struct [] [] [] [] [] []
    [(⟨⟨"+"⟩, ⟨"Number"⟩, ⟨"Number"⟩⟩, dummyOp)] emptyScope 4

/-- Concrete fixture: the argument list `(1, a: 2, 3)` — two positional arguments
around a named one. -/
def c10args : EvaluatedArgumentList :=
  ⟨[(none, FruValue.Number 1), (some ⟨"a"⟩, FruValue.Number 2),
    (none, FruValue.Number 3)]⟩

/-- Concrete fixture: the flat sequence `2 + 3 * 4 - 1`. -/
def seq2341 : List Elem :=
  [mkNum 2, mkOp "+", mkNum 3, mkOp "*", mkNum 4, mkOp "-", mkNum 1]

/-- Concrete fixture: the flat sequence `10 - 3 - 2`. -/
def seq1032 : List Elem :=
  [mkNum 10, mkOp "-", mkNum 3, mkOp "-", mkNum 2]

/-- Concrete fixture: a syntax node of a kind the lowering does not recognize. -/
def bogusNode : CST := ⟨"bogus_kind", [], ""⟩

/-- Concrete fixture: a number-literal syntax node with text `2`. -/
def numNode : CST := ⟨"number_literal", [], "2"⟩

/-- Concrete fixture: a `set_field_statement` node whose `what` child lowers to a
number literal (not a field access). -/
def setFieldBadNode : CST :=
  ⟨"set_field_statement", [(some "what", numNode), (some "value", numNode)], ""⟩

theorem lookupA_mem {κ α : Type} [DecidableEq κ] {m : List (κ × α)} {k : κ} {v : α}
    (h : lookupA m k = some v) : (k, v) ∈ m := by
  induction m with
  | nil => simp [lookupA] at h
  | cons p rest ih =>
    obtain ⟨k2, v2⟩ := p
    by_cases hk : k2 = k
    · subst hk
      simp [lookupA] at h
      simp [h]
    · simp [lookupA, hk] at h
      exact List.mem_cons_of_mem _ (ih h)

theorem lookupA_append_none {κ α : Type} [DecidableEq κ] {m : List (κ × α)} {k : κ}
    (h : lookupA m k = none) (v : α) : lookupA (m ++ [(k, v)]) k = some v := by
  induction m with
  | nil => simp [lookupA]
  | cons p rest ih =>
    obtain ⟨k2, v2⟩ := p
    by_cases hk : k2 = k
    · simp [lookupA, hk] at h
    · simp [lookupA, hk] at h ⊢
      exact ih h

theorem lookupA_append_other {κ α : Type} [DecidableEq κ] (m : List (κ × α))
    (k j : κ) (v : α) (h : k ≠ j) :
    lookupA (m ++ [(k, v)]) j = lookupA m j := by
  induction m with
  | nil => simp [lookupA, h]
  | cons p rest ih =>
    obtain ⟨k2, v2⟩ := p
    by_cases hk : k2 = j
    · simp [lookupA, hk]
    · simp [lookupA, hk, ih]

theorem lookupA_updateA_self {κ α : Type} [DecidableEq κ] {m : List (κ × α)} {k : κ}
    {w : α} (h : lookupA m k = some w) (v : α) :
    lookupA (updateA m k v) k = some v := by
  induction m with
  | nil => simp [lookupA] at h
  | cons p rest ih =>
    obtain ⟨k2, v2⟩ := p
    by_cases hk : k2 = k
    · simp [lookupA, updateA, hk]
    · simp [lookupA, updateA, hk] at h ⊢
      exact ih h

/-- C1: with the precedence bands placing `+`,`-` in one band and `*`,`/` in a distinct
tighter-binding band, lowering the flat sequence `2 + 3 * 4 - 1` produces the tree
`(2 + (3*4)) - 1`, and lowering the one-band sequence `10 - 3 - 2` produces the
left-associative tree `(10 - 3) - 2`. -/
theorem c1_lowering_examples :
    calculate_precedence "+" = calculate_precedence "-" ∧
    calculate_precedence "*" = calculate_precedence "/" ∧
    calculate_precedence "+" ≠ calculate_precedence "*" ∧
    resolveBinaries seq2341 =
      some (.Binary ⟨"-"⟩
        (.Binary ⟨"+"⟩ (.Literal (.Number 2))
          (.Binary ⟨"*"⟩ (.Literal (.Number 3)) (.Literal (.Number 4))))
        (.Literal (.Number 1))) ∧
    resolveBinaries seq1032 =
      some (.Binary ⟨"-"⟩
        (.Binary ⟨"-"⟩ (.Literal (.Number 10)) (.Literal (.Number 3)))
        (.Literal (.Number 2))) :=
  ⟨rfl, rfl, by decide, rfl, rfl⟩

/-- C3: instantiating the two-field type `(a, b)` with positional arguments `[1, 2]`
yields the object `a=1, b=2`; with named arguments `{b: 2, a: 1}` the same object;
with `{a: 1, a: 2}` the duplicate-assignment error; with `{a: 1}` the missing-field
error naming `b`; with `{c: 1, a: 1, b: 2}` the unknown-field error naming `c`. -/
theorem c3_instantiation_cases :
    typeAB.instantiate ⟨[(none, FruValue.Number 1), (none, FruValue.Number 2)]⟩ =
      some (.ok (FruValue.Object (FruObject.mk typeAB
        [FruValue.Number 1, FruValue.Number 2]))) ∧
    typeAB.instantiate ⟨[(some ⟨"b"⟩, FruValue.Number 2), (some ⟨"a"⟩, FruValue.Number 1)]⟩ =
      some (.ok (FruValue.Object (FruObject.mk typeAB
        [FruValue.Number 1, FruValue.Number 2]))) ∧
    typeAB.instantiate ⟨[(some ⟨"a"⟩, FruValue.Number 1), (some ⟨"a"⟩, FruValue.Number 2)]⟩ =
      some (.error "field `a` is set more than once") ∧
    typeAB.instantiate ⟨[(some ⟨"a"⟩, FruValue.Number 1)]⟩ =
      some (.error "missing field `b`") ∧
    typeAB.instantiate ⟨[(some ⟨"c"⟩, FruValue.Number 1), (some ⟨"a"⟩, FruValue.Number 1),
        (some ⟨"b"⟩, FruValue.Number 2)]⟩ =
      some (.error "field `c` does not exist") :=
  ⟨rfl, rfl, rfl, rfl, rfl⟩

theorem removeA_fst {κ α : Type} [DecidableEq κ] (m : List (κ × α)) (k : κ) :
    (removeA m k).1 = lookupA m k := by
  induction m with
  | nil => simp [removeA, lookupA]
  | cons p rest ih =>
    obtain ⟨k2, v2⟩ := p
    by_cases hk : k2 = k
    · simp [removeA, lookupA, hk]
    · simp [removeA, lookupA, hk, ih]

theorem removeA_other {κ α : Type} [DecidableEq κ] (m : List (κ × α)) (k j : κ)
    (h : j ≠ k) : lookupA (removeA m k).2 j = lookupA m j := by
  induction m with
  | nil => simp [removeA, lookupA]
  | cons p rest ih =>
    obtain ⟨k2, v2⟩ := p
    by_cases hk : k2 = k
    · subst hk
      have hkj : ¬ k2 = j := fun hh => h hh.symm
      simp [removeA, lookupA, hkj]
    · by_cases hj : k2 = j
      · simp [removeA, lookupA, hk, hj, h]
      · simp [removeA, lookupA, hk, hj, ih]

theorem findA_congr {α : Type} (l : List α) (p q : α → Bool)
    (h : ∀ a ∈ l, p a = q a) : l.find? p = l.find? q := by
  induction l with
  | nil => rfl
  | cons a rest ih =>
    have ha := h a (List.mem_cons_self a rest)
    by_cases hp : p a = true
    · rw [List.find?_cons_of_pos _ hp, List.find?_cons_of_pos _ (ha ▸ hp)]
    · rw [List.find?_cons_of_neg _ hp,
        List.find?_cons_of_neg _ (by rw [← ha]; exact hp)]
      exact ih fun a ha2 => h a (List.mem_cons_of_mem _ ha2)

theorem fillFields_first_missing (fields : List FruField)
    (obj : List (Identifier × FruValue))
    (hnodup : (fields.map FruField.ident).Nodup) (f : FruField)
    (hfirst : firstUnfilled fields obj = some f) :
    fillFields fields obj = .error ("missing field `" ++ f.ident.text ++ "`") := by
  induction fields generalizing obj with
  | nil => simp [firstUnfilled] at hfirst
  | cons f0 fs ih =>
    rw [List.map_cons, List.nodup_cons] at hnodup
    rcases hlook : lookupA obj f0.ident with _ | v
    · have hf0 : firstUnfilled (f0 :: fs) obj = some f0 := by
        simp [firstUnfilled, List.find?_cons_of_pos, hlook]
      rw [hfirst] at hf0
      injection hf0 with hf0
      subst hf0
      simp only [fillFields, removeA_fst, hlook]
    · have hfirst2 : firstUnfilled fs obj = some f := by
        rw [firstUnfilled] at hfirst ⊢
        rw [List.find?_cons_of_neg] at hfirst
        · exact hfirst
        · simp [hlook]
      have hstep : firstUnfilled fs (removeA obj f0.ident).2 = some f := by
        rw [firstUnfilled,
          findA_congr _ _ (fun g => (lookupA obj g.ident).isNone) ?_]
        · exact hfirst2
        · intro g hg
          have hne : g.ident ≠ f0.ident := by
            intro he
            exact hnodup.1 (he ▸ List.mem_map_of_mem FruField.ident hg)
          rw [removeA_other _ _ _ hne]
      have hrec := ih (removeA obj f0.ident).2 hnodup.2 hstep
      simp only [fillFields, removeA_fst, hlook, hrec]
      rfl

/-- C4 fails on the code: instantiating the two-field type `(a, b)` with the named
arguments `{c: 1, a: 1}` passes an unknown named argument (`c`) and leaves the
declared field `b` unfilled, yet the reported error is the missing-field error for
`b`, not the unknown-field error for `c` — the unknown-field check runs only after
the missing-field check. -/
theorem c4_counterexample_missing_reported_first :
    typeAB.instantiate
        ⟨[(some ⟨"c"⟩, FruValue.Number 1), (some ⟨"a"⟩, FruValue.Number 1)]⟩ =
      some (.error "missing field `b`") ∧
    ("missing field `b`" : String) ≠ "field `c` does not exist" ∧
    ¬ mentions "missing field `b`" "c" :=
  ⟨rfl, by decide, by decide⟩

/-- C4 amended: the unknown-field check runs after the missing-field check, so for
every type with pairwise-distinct field names, whenever the argument-application loop
succeeds and some declared field received no value, instantiation reports the
missing-field error naming the first unfilled field in declaration order (any unknown
named argument notwithstanding). -/
theorem c4_amended_missing_field_first (t : FruType) (args : EvaluatedArgumentList)
    (obj : List (Identifier × FruValue)) (f : FruField)
    (hnodup : (t.fields.map FruField.ident).Nodup)
    (hloop : instantiateLoop t.fields args.args 0 [] = some (.ok obj))
    (hfirst : firstUnfilled t.fields obj = some f) :
    t.instantiate args = some (.error ("missing field `" ++ f.ident.text ++ "`")) := by
  simp only [FruType.instantiate, hloop,
    fillFields_first_missing t.fields obj hnodup f hfirst]

theorem c4_amended_missing_field_first_witness :
    typeAB.instantiate
        ⟨[(some ⟨"c"⟩, FruValue.Number 1), (some ⟨"a"⟩, FruValue.Number 1)]⟩ =
      some (.error "missing field `b`") :=
  c4_amended_missing_field_first typeAB
    ⟨[(some ⟨"c"⟩, FruValue.Number 1), (some ⟨"a"⟩, FruValue.Number 1)]⟩
    [(⟨"c"⟩, FruValue.Number 1), (⟨"a"⟩, FruValue.Number 1)]
    ⟨false, ⟨"b"⟩, none⟩ (by decide) rfl rfl

/-- C10 fails as stated: the argument list `(1, a: 2, 3)` against the one-field type
`(a)` contains two positional arguments — more than the one declared field — yet
instantiation does not panic: the named argument `a` collides with the field already
assigned positionally, and the recoverable duplicate-assignment error is returned
before the out-of-bounds index is ever reached. -/
theorem c10_counterexample_duplicate_preempts_panic :
    typeA.instantiate c10args = some (.error "field `a` is set more than once") ∧
    (c10args.args.filter fun a => a.1.isNone).length = 2 ∧
    typeA.fields.length = 1 :=
  ⟨rfl, rfl, rfl⟩

theorem instantiateLoop_overflow (fields : List FruField)
    (args : List (Option Identifier × FruValue)) (n : Nat)
    (obj : List (Identifier × FruValue))
    (hnodup : (fields.map FruField.ident).Nodup)
    (hpos : ∀ a ∈ args, a.1 = none)
    (hn : n ≤ fields.length)
    (hlen : fields.length < n + args.length)
    (hinv : ∀ k v, (k, v) ∈ obj → k ∈ (fields.take n).map FruField.ident) :
    instantiateLoop fields args n obj = none := by
  induction args generalizing n obj with
  | nil =>
    exfalso
    simp at hlen
    omega
  | cons a rest ih =>
    obtain ⟨identOpt, v⟩ := a
    have ha : identOpt = none := hpos (identOpt, v) (List.mem_cons_self _ _)
    subst ha
    by_cases hlt : n < fields.length
    · have hget : fields[n]? = some fields[n] := List.getElem?_eq_getElem hlt
      have htake : fields.take (n + 1) = fields.take n ++ [fields[n]] := by
        rw [List.take_succ, hget]
        rfl
      have hdup : lookupA obj fields[n].ident = none := by
        rcases hcase : lookupA obj fields[n].ident with _ | w
        · rfl
        · exfalso
          have hmem : fields[n].ident ∈ (fields.take n).map FruField.ident :=
            hinv _ _ (lookupA_mem hcase)
          have hsplit : fields.map FruField.ident =
              (fields.take n).map FruField.ident ++
                (fields.drop n).map FruField.ident := by
            rw [← List.map_append, List.take_append_drop]
          rw [hsplit] at hnodup
          have hdisj := (List.nodup_append.mp hnodup).2.2
          have hmem2 : fields[n].ident ∈ (fields.drop n).map FruField.ident := by
            rw [List.drop_eq_getElem_cons hlt]
            exact List.mem_cons_self _ _
          exact hdisj hmem hmem2
      have hrec := ih (n + 1) (obj ++ [(fields[n].ident, v)])
        (fun a ha2 => hpos a (List.mem_cons_of_mem _ ha2))
        (by omega) (by simp at hlen ⊢; omega)
        (by
          intro k w hkw
          rcases List.mem_append.mp hkw with hold | hnew
          · have hk := hinv k w hold
            rw [htake, List.map_append]
            exact List.mem_append_left _ hk
          · simp at hnew
            rw [htake, List.map_append]
            apply List.mem_append_right
            simp [hnew.1]
        )
      simp [instantiateLoop, hget, hdup, hrec]
    · have hnone : fields[n]? = none := by
        rw [List.getElem?_eq_none]
        omega
      simp [instantiateLoop, hnone]

/-- C10 amended: instantiation panics on an out-of-bounds field index rather than
returning a recoverable error whenever a positional argument's index reaches past the
declared fields — unless an earlier argument first triggers the recoverable
duplicate-assignment error; in particular, for every type with pairwise-distinct field
names and every argument list of only positional arguments that is longer than the
field list, `instantiate` panics (modelled by `none`). -/
theorem c10_amended_positional_overflow_panics (t : FruType)
    (args : EvaluatedArgumentList)
    (hnodup : (t.fields.map FruField.ident).Nodup)
    (hpos : ∀ a ∈ args.args, a.1 = none)
    (hlen : t.fields.length < args.args.length) :
    t.instantiate args = none := by
  have h := instantiateLoop_overflow t.fields args.args 0 [] hnodup hpos
    (Nat.zero_le _) (by omega) (by simp)
  simp [FruType.instantiate, h]

theorem c10_amended_positional_overflow_panics_witness :
    typeA.instantiate ⟨[(none, FruValue.Number 1), (none, FruValue.Number 2)]⟩ =
      none :=
  c10_amended_positional_overflow_panics typeA
    ⟨[(none, FruValue.Number 1), (none, FruValue.Number 2)]⟩
    (by decide) (by decide) (by decide)

/-- C6: registering an operator under a key already present in the per-type operator
table fails with the duplicate-registration error and leaves the table unchanged;
registering under a vacant key succeeds and only appends — existing entries are never
redefined or shadowed. -/
theorem c6_operator_registration (t : FruType) (i : OperatorIdentifier)
    (v : AnyOperator) :
    (∀ o, lookupA t.operators i = some o →
      t.set_operator i v =
        (.error ("operator `" ++ i.op.text ++ "` is already set"), t.operators)) ∧
    (lookupA t.operators i = none →
      t.set_operator i v = (.ok (), t.operators ++ [(i, v)]) ∧
      lookupA (t.set_operator i v).2 i = some v ∧
      ∀ j, j ≠ i → lookupA (t.set_operator i v).2 j = lookupA t.operators j) := by
  constructor
  · intro o ho
    simp [FruType.set_operator, ho]
  · intro hnone
    refine ⟨by simp [FruType.set_operator, hnone], ?_, ?_⟩
    · simp [FruType.set_operator, hnone, lookupA_append_none hnone]
    · intro j hj
      simp [FruType.set_operator, hnone,
        lookupA_append_other t.operators i j v hj.symm]

theorem c6_operator_registration_witness :
    typeN.set_operator ⟨⟨"+"⟩, ⟨"Number"⟩, ⟨"Number"⟩⟩ dummyOp =
      (.error "operator `+` is already set", typeN.operators) ∧
    typeN.set_operator ⟨⟨"-"⟩, ⟨"Number"⟩, ⟨"Number"⟩⟩ dummyOp =
      (.ok (), typeN.operators ++ [(⟨⟨"-"⟩, ⟨"Number"⟩, ⟨"Number"⟩⟩, dummyOp)]) :=
  ⟨(c6_operator_registration typeN ⟨⟨"+"⟩, ⟨"Number"⟩, ⟨"Number"⟩⟩ dummyOp).1
      dummyOp rfl,
    ((c6_operator_registration typeN ⟨⟨"-"⟩, ⟨"Number"⟩, ⟨"Number"⟩⟩ dummyOp).2
      rfl).1⟩

/-- C7: for every hash function, every interner state and every text, interning the
same text twice yields the same handle, and — absent a hash collision with a distinct
previously interned text — displaying the handle produced by intern reproduces the
text exactly. -/
theorem c7_intern_idempotent_display_roundtrip (hash : String → Nat)
    (m : Interner.BackwardsMap) (x : String) :
    (Interner.Identifier.new hash x m).1 =
      (Interner.Identifier.new hash x (Interner.Identifier.new hash x m).2).1 ∧
    ((∀ y, lookupA m (hash x) = some y → y = x) →
      Interner.display (Interner.Identifier.new hash x m).2
        (Interner.Identifier.new hash x m).1 = some x) := by
  constructor
  · rfl
  · intro hcol
    rcases hl : lookupA m (hash x) with _ | y
    · simp [Interner.Identifier.new, Interner.display, Interner.orInsert, hl,
        lookupA_append_none hl]
    · have hyx := hcol y hl
      subst hyx
      simp [Interner.Identifier.new, Interner.display, Interner.orInsert, hl]

theorem c7_intern_idempotent_display_roundtrip_witness :
    (Interner.Identifier.new String.length "ab" []).1 =
      (Interner.Identifier.new String.length "ab"
        (Interner.Identifier.new String.length "ab" []).2).1 ∧
    Interner.display (Interner.Identifier.new String.length "ab" []).2
      (Interner.Identifier.new String.length "ab" []).1 = some "ab" := by
  have h := c7_intern_idempotent_display_roundtrip String.length [] "ab"
  exact ⟨h.1, h.2 (by intro y hy; simp [lookupA] at hy)⟩

theorem get_variable_spec (d : Nat) :
    ∀ (s : Scope), scopeDepth s ≤ d → ∀ i : Identifier,
      (∀ u, lookupVar s i = some u → s.get_variable i = .ok u) ∧
      (lookupVar s i = none →
        s.get_variable i =
          .error ("variable `" ++ i.text ++ "` does not exist")) := by
  induction d with
  | zero =>
    intro s hs i
    obtain ⟨vars, tag, parent⟩ := s
    cases parent with
    | some p => simp [scopeDepth] at hs
    | none =>
      constructor
      · intro u hu
        rw [lookupVar] at hu
        rw [Scope.get_variable, hu]
        rfl
      · intro hu
        rw [lookupVar] at hu
        rw [Scope.get_variable, hu]
        rfl
  | succ d ih =>
    intro s hs i
    obtain ⟨vars, tag, parent⟩ := s
    cases parent with
    | none =>
      constructor
      · intro u hu
        rw [lookupVar] at hu
        rw [Scope.get_variable, hu]
        rfl
      · intro hu
        rw [lookupVar] at hu
        rw [Scope.get_variable, hu]
        rfl
    | some p =>
      have hp : scopeDepth p ≤ d := by
        rw [scopeDepth] at hs
        omega
      have ihp := ih p hp i
      rcases hv : lookupA vars i with _ | u0
      · constructor
        · intro u hu
          rw [lookupVar, hv] at hu
          simp only [Option.isSome_none, Bool.false_eq_true, if_false] at hu
          rw [Scope.get_variable, hv]
          exact ihp.1 u hu
        · intro hu
          rw [lookupVar, hv] at hu
          simp only [Option.isSome_none, Bool.false_eq_true, if_false] at hu
          rw [Scope.get_variable, hv]
          exact ihp.2 hu
      · constructor
        · intro u hu
          rw [lookupVar, hv] at hu
          simp only [Option.isSome_some, if_true, Option.some.injEq] at hu
          subst hu
          rw [Scope.get_variable, hv]
          rfl
        · intro hu
          rw [lookupVar, hv] at hu
          simp at hu

theorem setExisting_lookup (d : Nat) :
    ∀ (s : Scope), scopeDepth s ≤ d → ∀ (i : Identifier) (v : FruValue),
      s.has_variable i = true → lookupVar (s.setExisting i v) i = some v := by
  induction d with
  | zero =>
    intro s hs i v hh
    obtain ⟨vars, tag, parent⟩ := s
    cases parent with
    | some p => simp [scopeDepth] at hs
    | none =>
      rw [Scope.has_variable] at hh
      obtain ⟨u, hu⟩ := Option.isSome_iff_exists.mp hh
      rw [Scope.setExisting, if_pos hh, lookupVar]
      exact lookupA_updateA_self hu v
  | succ d ih =>
    intro s hs i v hh
    obtain ⟨vars, tag, parent⟩ := s
    cases parent with
    | none =>
      rw [Scope.has_variable] at hh
      obtain ⟨u, hu⟩ := Option.isSome_iff_exists.mp hh
      rw [Scope.setExisting, if_pos hh, lookupVar]
      exact lookupA_updateA_self hu v
    | some p =>
      by_cases hf : (lookupA vars i).isSome = true
      · obtain ⟨u, hu⟩ := Option.isSome_iff_exists.mp hf
        rw [Scope.setExisting, if_pos hf, lookupVar]
        have hupd := lookupA_updateA_self hu v
        rw [hupd]
        simp
      · have hnone : lookupA vars i = none :=
          Option.not_isSome_iff_eq_none.mp hf
        have hp : scopeDepth p ≤ d := by
          rw [scopeDepth] at hs
          omega
        have hhp : p.has_variable i = true := by
          rw [Scope.has_variable, hnone] at hh
          simpa using hh
        rw [Scope.setExisting, if_neg hf, lookupVar, hnone]
        simp only [Option.isSome_none, Bool.false_eq_true, if_false]
        exact ih p hp i v hhp

/-- C8: the scope exposed as a native value delegates exactly: get-property returns
the wrapped scope chain's innermost binding of the identifier and fails exactly when
the identifier is bound nowhere on the chain, and set-property succeeds and assigns
the variable in the wrapped scope, so that a subsequent lookup yields the assigned
value. -/
theorem c8_scope_as_value_delegation (b : BuiltinScopeInstance) (i : Identifier)
    (v : FruValue) :
    (∀ u, lookupVar b.scope i = some u → b.get_prop i = .ok u) ∧
    (lookupVar b.scope i = none →
      b.get_prop i = .error ("variable `" ++ i.text ++ "` does not exist")) ∧
    (b.set_prop i v).1 = .ok () ∧
    lookupVar ((b.set_prop i v).2).scope i = some v := by
  obtain ⟨s⟩ := b
  have hget := get_variable_spec (scopeDepth s) s (le_refl _) i
  refine ⟨fun u hu => hget.1 u hu, fun hn => hget.2 hn, rfl, ?_⟩
  show lookupVar (s.let_set_variable i v) i = some v
  rw [Scope.let_set_variable]
  by_cases hh : s.has_variable i = true
  · rw [if_pos hh]
    exact setExisting_lookup (scopeDepth s) s (le_refl _) i v hh
  · rw [if_neg hh]
    obtain ⟨vars, tag, parent⟩ := s
    cases parent with
    | none =>
      have hnone : lookupA vars i = none := by
        rw [Scope.has_variable] at hh
        exact Option.not_isSome_iff_eq_none.mp hh
      show lookupVar (Scope.mk (vars ++ [(i, v)]) tag none) i = some v
      rw [lookupVar]
      exact lookupA_append_none hnone v
    | some p =>
      have hnone : lookupA vars i = none := by
        rw [Scope.has_variable] at hh
        simp at hh
        exact Option.not_isSome_iff_eq_none.mp (by simp [hh.1])
      show lookupVar (Scope.mk (vars ++ [(i, v)]) tag (some p)) i = some v
      rw [lookupVar, lookupA_append_none hnone v]
      simp

theorem c8_scope_as_value_delegation_witness :
    (BuiltinScopeInstance.mk
        (Scope.mk [(⟨"x"⟩, FruValue.Number 1)] none none)).get_prop ⟨"x"⟩ =
      .ok (FruValue.Number 1) ∧
    (BuiltinScopeInstance.mk
        (Scope.mk [(⟨"x"⟩, FruValue.Number 1)] none none)).get_prop ⟨"y"⟩ =
      .error "variable `y` does not exist" ∧
    lookupVar (((BuiltinScopeInstance.mk
        (Scope.mk [(⟨"x"⟩, FruValue.Number 1)] none none)).set_prop ⟨"z"⟩
          (FruValue.Number 7)).2).scope ⟨"z"⟩ = some (FruValue.Number 7) := by
  refine ⟨?_, ?_, ?_⟩
  · exact (c8_scope_as_value_delegation _ ⟨"x"⟩ FruValue.Nah).1
      (FruValue.Number 1) rfl
  · exact (c8_scope_as_value_delegation _ ⟨"y"⟩ FruValue.Nah).2.1 rfl
  · exact (c8_scope_as_value_delegation _ ⟨"z"⟩ (FruValue.Number 7)).2.2.2

/-- C5 fails as stated on its final clause: on a type named `Vec` with no static
members, accessing the unknown symbol `foo` produces the not-found error
`static prop `foo` not found`, which names the symbol but does not name the type —
the type's name does not occur in the message. -/
theorem c5_counterexample_not_found_lacks_type_name :
    FruType.get_prop trivialEval typeVec ⟨"foo"⟩ =
      .error "static prop `foo` not found" ∧
    typeVec.ident.text = "Vec" ∧
    ¬ mentions "static prop `foo` not found" "Vec" :=
  ⟨rfl, rfl, by decide⟩

/-- C5 amended: static member access resolves in the priority order static field
(direct read, and direct write updating the store), then static property (getter
evaluated, and setter executed, in a fresh type-bound scope, the setter with the
assigned value bound to its parameter; failing when the accessed direction's accessor
is absent), then static method (read returns a freshly bound Function with the stored
parameters and body over a fresh type-bound scope; never consulted for writes); if
none match, the access fails with a not-found error naming the symbol (but not the
type). -/
theorem c5_amended_static_resolution
    (evalG : FruExpression → Scope → Except FruError FruValue)
    (execS : FruStatement → Scope → Except FruError Unit)
    (t : FruType) (i : Identifier) (v : FruValue) :
    (∀ fv, lookupA t.static_fields i = some fv →
      FruType.get_prop evalG t i = .ok fv ∧
      (FruType.set_prop execS t i v).1 = .ok () ∧
      (FruType.set_prop execS t i v).2 = updateA t.static_fields i v) ∧
    (lookupA t.static_fields i = none →
      (∀ p, lookupA t.static_properties i = some p →
        (∀ g, p.getter = some g →
          FruType.get_prop evalG t i = evalG g (Scope.new_with_type t)) ∧
        (p.getter = none →
          FruType.get_prop evalG t i =
            .error ("static property `" ++ i.text ++ "` has no getter")) ∧
        (∀ vi st, p.setter = some (vi, st) →
          (FruType.set_prop execS t i v).1 =
            execS st (Scope.mk [(vi, v)] (some t) none)) ∧
        (p.setter = none →
          (FruType.set_prop execS t i v).1 =
            .error ("static property `" ++ i.text ++ "` has no setter"))) ∧
      (lookupA t.static_properties i = none →
        (∀ m, lookupA t.static_methods i = some m →
          FruType.get_prop evalG t i =
            .ok (FruValue.Function (FruFunction.mk m.parameters m.body
              (Scope.new_with_type t))) ∧
          (FruType.set_prop execS t i v).1 =
            .error ("static prop `" ++ i.text ++ "` not found")) ∧
        (lookupA t.static_methods i = none →
          FruType.get_prop evalG t i =
            .error ("static prop `" ++ i.text ++ "` not found") ∧
          (FruType.set_prop execS t i v).1 =
            .error ("static prop `" ++ i.text ++ "` not found") ∧
          mentions ("static prop `" ++ i.text ++ "` not found") i.text))) := by
  constructor
  · intro fv hfv
    refine ⟨?_, ?_, ?_⟩
    · simp [FruType.get_prop, hfv]
    · simp [FruType.set_prop, hfv]
    · simp [FruType.set_prop, hfv]
  · intro hf
    constructor
    · intro p hp
      refine ⟨?_, ?_, ?_, ?_⟩
      · intro g hg
        simp [FruType.get_prop, hf, hp, hg]
      · intro hg
        simp [FruType.get_prop, hf, hp, hg]
      · intro vi st hst
        simp [FruType.set_prop, hf, hp, hst, Scope.let_variable, Scope.new_with_type,
          Scope.vars, Scope.typeTag, Scope.parent, lookupA]
      · intro hst
        simp [FruType.set_prop, hf, hp, hst]
    · intro hprop
      constructor
      · intro m hm
        constructor
        · simp [FruType.get_prop, hf, hprop, hm]
        · simp [FruType.set_prop, hf, hprop]
      · intro hm
        refine ⟨?_, ?_, ?_⟩
        · simp [FruType.get_prop, hf, hprop, hm]
        · simp [FruType.set_prop, hf, hprop]
        · exact ⟨"static prop `".toList, "` not found".toList,
            by simp [String.toList]⟩

theorem c5_amended_static_resolution_witness :
    FruType.get_prop trivialEval typeS ⟨"x"⟩ = .ok (FruValue.Number 5) ∧
    (FruType.set_prop trivialExec typeS ⟨"x"⟩ (FruValue.Number 9)).2 =
      [(⟨"x"⟩, FruValue.Number 9)] := by
  have h := (c5_amended_static_resolution trivialEval trivialExec typeS ⟨"x"⟩
    (FruValue.Number 9)).1 (FruValue.Number 5) rfl
  refine ⟨h.1, ?_⟩
  rw [h.2.2]
  rfl

/-- C9: lowering is fatal, never a recoverable Value-level error, on a malformed
tree — the lowering functions return the lowered tree or abort (`none`), with no
error channel at all. First part: every expression node whose kind is not among the
recognized expression kinds falls through to the fatal `unimplemented!`. Second
part: every `set_field_statement` whose `what` child lowers to anything other than a
field-access expression hits the fatal `panic!` of the `set_field_statement` arm. -/
theorem c9_lowering_fatal_on_malformed :
    (∀ (fuel : Nat) (node : CST), node.kind ∉ recognizedExpressionKinds →
      parse_expression (fuel + 1) node = none) ∧
    (∀ (fuel : Nat) (node wc vc : CST) (e : FruExpression),
      node.kind = "set_field_statement" →
      node.childByFieldName "what" = some wc →
      node.childByFieldName "value" = some vc →
      parse_expression fuel wc = some e →
      e.isFieldAccess = false →
      parse_statement (fuel + 1) node = none) := by
  constructor
  · intro fuel node h
    simp only [recognizedExpressionKinds, List.mem_cons, List.not_mem_nil, or_false,
      not_or] at h
    obtain ⟨h1, h2, h3, h4, h5, h6, h7, h8, h9, h10, h11, h12, h13⟩ := h
    simp [parse_expression, h1, h2, h3, h4, h5, h6, h7, h8, h9, h10, h11, h12, h13]
  · intro fuel node wc vc e hk hwc hvc hpe hnfa
    rcases hv2 : parse_expression fuel vc with _ | val
    · simp [parse_statement, hk, hwc, hvc, hpe, hv2]
    · simp only [parse_statement, hk, hwc, hvc, hpe, hv2]
      simp only [String.reduceEq, if_false, Option.bind_some]
      cases e <;> simp_all [FruExpression.isFieldAccess]

theorem c9_lowering_fatal_on_malformed_witness :
    parse_expression 1 bogusNode = none ∧
    parse_statement 2 setFieldBadNode = none := by
  have hnum : parse_expression 1 numNode = some (.Literal (.Number 2)) := by
    rw [show (1 : Nat) = 0 + 1 from rfl, parse_expression]
    simp [numNode, parseNumberText, digitsValGo, digitVal]
  exact ⟨c9_lowering_fatal_on_malformed.1 0 bogusNode (by decide),
    c9_lowering_fatal_on_malformed.2 1 setFieldBadNode numNode numNode
      (.Literal (.Number 2)) rfl rfl rfl hnum rfl⟩

theorem bandPass_cons (p : Int) (e : Elem) (rest : List Elem) :
    bandPass p (e :: rest) = passAux p e rest [] := by
  rw [bandPass]

theorem passAux_nil (p : Int) (prev : Elem) (acc : List Elem) :
    passAux p prev [] acc = some (acc.reverse ++ [prev]) := by
  rw [passAux]

theorem passAux_reduce (p : Int) (e b : FruExpression) (op : Identifier)
    (rest2 acc : List Elem) :
    passAux p (.Expr e) (.BinOp op p :: .Expr b :: rest2) acc =
      passAux p (.Expr (.Binary op e b)) rest2 acc := by
  rw [passAux, if_pos rfl]

theorem passAux_skip_op (p q : Int) (hq : q ≠ p) (op : Identifier) (prev : Elem)
    (rest2 acc : List Elem) :
    passAux p prev (.BinOp op q :: rest2) acc =
      passAux p (.BinOp op q) rest2 (prev :: acc) := by
  rcases prev with e0 | ⟨op0, q0⟩ <;> rcases rest2 with _ | ⟨c2, rest3⟩ <;>
    try rcases c2 with e2 | ⟨op2, q2⟩
  all_goals simp [passAux, hq]

theorem passAux_skip_expr (p : Int) (e : FruExpression) (prev : Elem)
    (rest2 acc : List Elem) :
    passAux p prev (.Expr e :: rest2) acc =
      passAux p (.Expr e) rest2 (prev :: acc) := by
  rw [passAux]

theorem specStep_nil (p : Int) : specStep p [] = none := by
  simp [specStep]

theorem specStep_single (p : Int) (e : FruExpression) :
    specStep p [Elem.Expr e] = none := by
  simp [specStep]

theorem specStep_reduce (p : Int) (a b : FruExpression) (op : Identifier)
    (rest : List Elem) :
    specStep p (.Expr a :: .BinOp op p :: .Expr b :: rest) =
      some (.Expr (.Binary op a b) :: rest) := by
  simp [specStep]

theorem specStep_skip (p q : Int) (hq : q ≠ p) (a b : FruExpression)
    (op : Identifier) (rest : List Elem) :
    specStep p (.Expr a :: .BinOp op q :: .Expr b :: rest) =
      (specStep p (.Expr b :: rest)).map fun t =>
        .Expr a :: .BinOp op q :: t := by
  simp [specStep, hq]

theorem specBand_zero (p : Int) (l : List Elem) : specBand p 0 l = l := rfl

theorem specBand_succ_none (p : Int) (l : List Elem) (f : Nat)
    (h : specStep p l = none) : specBand p (f + 1) l = l := by
  simp [specBand, h]

theorem specBand_succ_some (p : Int) (l l2 : List Elem) (f : Nat)
    (h : specStep p l = some l2) : specBand p (f + 1) l = specBand p f l2 := by
  simp [specBand, h]

theorem precsOf_nil : precsOf [] = [] := rfl

theorem precsOf_cons_expr (e : FruExpression) (l : List Elem) :
    precsOf (.Expr e :: l) = precsOf l := by
  simp [precsOf]

theorem precsOf_cons_binop (op : Identifier) (q : Int) (l : List Elem) :
    precsOf (.BinOp op q :: l) = q :: precsOf l := by
  simp [precsOf]

theorem Alt_shape {l : List Elem} (h : Alt l) :
    ∃ e rest, l = Elem.Expr e :: rest := by
  cases h with
  | single e => exact ⟨e, [], rfl⟩
  | cons e op q rest hr => exact ⟨e, _, rfl⟩

theorem Alt_length_pos {l : List Elem} (h : Alt l) : 1 ≤ l.length := by
  cases h <;> simp

theorem Alt_replace_head {b x : FruExpression} {t : List Elem}
    (h : Alt (Elem.Expr b :: t)) : Alt (Elem.Expr x :: t) := by
  cases h with
  | single _ => exact Alt.single x
  | cons _ op q rest hr => exact Alt.cons x op q rest hr

theorem Alt_cons_inv {e : FruExpression} {op : Identifier} {q : Int}
    {rest : List Elem} (h : Alt (Elem.Expr e :: Elem.BinOp op q :: rest)) :
    Alt rest := by
  cases h with
  | cons _ _ _ _ hr => exact hr

theorem passAux_acc (p : Int) :
    ∀ (n : Nat) (rest : List Elem), rest.length ≤ n →
      ∀ (prev : Elem) (acc : List Elem),
        passAux p prev rest acc =
          (passAux p prev rest []).map fun out => acc.reverse ++ out := by
  intro n
  induction n with
  | zero =>
    intro rest h prev acc
    have hnil : rest = [] := List.eq_nil_of_length_eq_zero (Nat.le_zero.mp h)
    subst hnil
    rw [passAux_nil, passAux_nil]
    simp
  | succ n ih =>
    intro rest h prev acc
    rcases rest with _ | ⟨cur, rest2⟩
    · rw [passAux_nil, passAux_nil]
      simp
    rcases cur with e2 | ⟨op, q⟩
    · rw [passAux_skip_expr, passAux_skip_expr]
      rw [ih rest2 (by simp at h; omega) (.Expr e2) (prev :: acc),
        ih rest2 (by simp at h; omega) (.Expr e2) [prev]]
      cases hpa : passAux p (.Expr e2) rest2 [] <;> simp [List.append_assoc]
    · by_cases hq : q = p
      · subst hq
        rcases prev with e0 | ⟨op0, q0⟩ <;> rcases rest2 with _ | ⟨c2, rest3⟩ <;>
          try rcases c2 with e2 | ⟨op2, q2⟩
        all_goals
          first
          | (rw [passAux_reduce, passAux_reduce]
             exact ih rest3 (by simp at h; omega) (.Expr (.Binary op e0 e2)) acc)
          | simp [passAux]
      · rw [passAux_skip_op p q hq, passAux_skip_op p q hq]
        rw [ih rest2 (by simp at h; omega) (.BinOp op q) (prev :: acc),
          ih rest2 (by simp at h; omega) (.BinOp op q) [prev]]
        cases hpa : passAux p (.BinOp op q) rest2 [] <;> simp [List.append_assoc]

theorem Alt_step_both (p : Int) :
    ∀ (n : Nat) (l m : List Elem), l.length ≤ n → Alt l → specStep p l = some m →
      Alt m ∧ m.length + 2 = l.length := by
  intro n
  induction n with
  | zero =>
    intro l m hl hAlt h
    exfalso
    have := Alt_length_pos hAlt
    omega
  | succ n ih =>
    intro l m hl hAlt h
    cases hAlt with
    | single e =>
      rw [specStep_single] at h
      exact absurd h (by simp)
    | cons e op q rest hr =>
      obtain ⟨b, rest2, rfl⟩ := Alt_shape hr
      by_cases hq : q = p
      · subst hq
        rw [specStep_reduce] at h
        injection h with h
        subst h
        exact ⟨Alt_replace_head hr, by simp⟩
      · rw [specStep_skip p q hq] at h
        rcases hs : specStep p (.Expr b :: rest2) with _ | t2
        · rw [hs] at h
          simp at h
        · rw [hs] at h
          simp at h
          subst h
          have hrec := ih (.Expr b :: rest2) t2 (by simp at hl ⊢; omega) hr hs
          refine ⟨Alt.cons e op q _ hrec.1, ?_⟩
          have := hrec.2
          simp at this ⊢
          omega

theorem specBand_fuel (p : Int) :
    ∀ (n : Nat) (l : List Elem), l.length ≤ n → Alt l → ∀ f, l.length ≤ f →
      specBand p f l = specBandRun p l := by
  intro n
  induction n with
  | zero =>
    intro l hl hAlt f hf
    exfalso
    have := Alt_length_pos hAlt
    omega
  | succ n ih =>
    intro l hl hAlt f hf
    have hlp := Alt_length_pos hAlt
    rcases hs : specStep p l with _ | l2
    · rcases f with _ | f
      · exfalso
        omega
      · rw [specBand_succ_none p l f hs]
        obtain ⟨g, hg⟩ : ∃ g, l.length = g + 1 := ⟨l.length - 1, by omega⟩
        rw [specBandRun, hg, specBand_succ_none p l g hs]
    · obtain ⟨hAlt2, hlen2⟩ := Alt_step_both p l.length l l2 (le_refl _) hAlt hs
      rcases f with _ | f
      · exfalso
        omega
      · rw [specBand_succ_some p l l2 f hs]
        have h1 : specBand p f l2 = specBandRun p l2 :=
          ih l2 (by omega) hAlt2 f (by omega)
        have h2 : specBandRun p l = specBandRun p l2 := by
          obtain ⟨g, hg⟩ : ∃ g, l.length = g + 1 := ⟨l.length - 1, by omega⟩
          rw [specBandRun, hg, specBand_succ_some p l l2 g hs]
          exact ih l2 (by omega) hAlt2 g (by omega)
        rw [h1, ← h2]

theorem specBandRun_prefix (p : Int) :
    ∀ (n : Nat) (rest : List Elem), rest.length ≤ n → Alt rest →
      ∀ (e : FruExpression) (op : Identifier) (q : Int), q ≠ p →
        specBandRun p (.Expr e :: .BinOp op q :: rest) =
          .Expr e :: .BinOp op q :: specBandRun p rest := by
  intro n
  induction n with
  | zero =>
    intro rest hl hAlt
    exfalso
    have := Alt_length_pos hAlt
    omega
  | succ n ih =>
    intro rest hl hAlt e op q hq
    obtain ⟨b, rest2, rfl⟩ := Alt_shape hAlt
    rcases hs : specStep p (.Expr b :: rest2) with _ | t2
    · have hsl : specStep p (.Expr e :: .BinOp op q :: .Expr b :: rest2) = none := by
        rw [specStep_skip p q hq, hs]
        rfl
      obtain ⟨g, hg⟩ :
          ∃ g, (Elem.Expr e :: Elem.BinOp op q :: Elem.Expr b :: rest2).length =
            g + 1 := ⟨rest2.length + 2, by simp⟩
      rw [specBandRun, hg, specBand_succ_none _ _ _ hsl]
      obtain ⟨g2, hg2⟩ : ∃ g2, (Elem.Expr b :: rest2).length = g2 + 1 :=
        ⟨rest2.length, by simp⟩
      rw [specBandRun, hg2, specBand_succ_none _ _ _ hs]
    · obtain ⟨hAlt2, hlen2⟩ := Alt_step_both p _ _ t2 (le_refl _) hAlt hs
      have hsl : specStep p (.Expr e :: .BinOp op q :: .Expr b :: rest2) =
          some (.Expr e :: .BinOp op q :: t2) := by
        rw [specStep_skip p q hq, hs]
        rfl
      have hlt2 : t2.length + 2 = rest2.length + 1 := by
        simpa using hlen2
      have hAltPre : Alt (Elem.Expr e :: Elem.BinOp op q :: t2) :=
        Alt.cons e op q t2 hAlt2
      obtain ⟨g, hg⟩ :
          ∃ g, (Elem.Expr e :: Elem.BinOp op q :: Elem.Expr b :: rest2).length =
            g + 1 := ⟨rest2.length + 2, by simp⟩
      have hfuel1 : specBand p g (Elem.Expr e :: Elem.BinOp op q :: t2) =
          specBandRun p (Elem.Expr e :: Elem.BinOp op q :: t2) := by
        apply specBand_fuel p (t2.length + 2) _ (by simp) hAltPre
        simp at hg ⊢
        omega
      obtain ⟨g2, hg2⟩ : ∃ g2, (Elem.Expr b :: rest2).length = g2 + 1 :=
        ⟨rest2.length, by simp⟩
      have hrhs : specBandRun p (Elem.Expr b :: rest2) = specBand p g2 t2 := by
        rw [specBandRun, hg2, specBand_succ_some _ _ _ _ hs]
      have hfuel2 : specBand p g2 t2 = specBandRun p t2 := by
        apply specBand_fuel p t2.length t2 (le_refl _) hAlt2
        simp at hg2
        omega
      rw [specBandRun, hg, specBand_succ_some _ _ _ _ hsl, hfuel1,
        ih t2 (by omega) hAlt2 e op q hq, hrhs, hfuel2]

theorem bandPass_spec (p : Int) :
    ∀ (n : Nat) (l : List Elem), l.length ≤ n → Alt l →
      bandPass p l = some (specBandRun p l) ∧ Alt (specBandRun p l) ∧
      precsOf (specBandRun p l) =
        (precsOf l).filter fun x => decide (x ≠ p) := by
  intro n
  induction n with
  | zero =>
    intro l hl hAlt
    exfalso
    have := Alt_length_pos hAlt
    omega
  | succ n ih =>
    intro l hl hAlt
    cases hAlt with
    | single e =>
      have hrun : specBandRun p [Elem.Expr e] = [Elem.Expr e] := by
        rw [specBandRun]
        exact specBand_succ_none p _ 0 (specStep_single p e)
      refine ⟨?_, ?_, ?_⟩
      · rw [hrun, bandPass_cons, passAux_nil]
        rfl
      · rw [hrun]
        exact Alt.single e
      · rw [hrun]
        simp [precsOf]
    | cons e op q rest hr =>
      obtain ⟨b, rest2, rfl⟩ := Alt_shape hr
      by_cases hq : q = p
      · subst q
        have hAlt2 : Alt (Elem.Expr (.Binary op e b) :: rest2) :=
          Alt_replace_head hr
        have hIH := ih (Elem.Expr (.Binary op e b) :: rest2)
          (by simp at hl ⊢; omega) hAlt2
        have hrun : specBandRun p
            (Elem.Expr e :: Elem.BinOp op p :: Elem.Expr b :: rest2) =
            specBandRun p (Elem.Expr (.Binary op e b) :: rest2) := by
          obtain ⟨g, hg⟩ :
              ∃ g, (Elem.Expr e :: Elem.BinOp op p ::
                Elem.Expr b :: rest2).length = g + 1 :=
            ⟨rest2.length + 2, by simp⟩
          rw [specBandRun, hg,
            specBand_succ_some _ _ _ _ (specStep_reduce p e b op rest2)]
          apply specBand_fuel p (rest2.length + 1) _ (by simp) hAlt2
          simp at hg ⊢
          omega
        have hbp : bandPass p
            (Elem.Expr e :: Elem.BinOp op p :: Elem.Expr b :: rest2) =
            bandPass p (Elem.Expr (.Binary op e b) :: rest2) := by
          rw [bandPass_cons, bandPass_cons, passAux_reduce]
        refine ⟨?_, ?_, ?_⟩
        · rw [hbp, hrun]
          exact hIH.1
        · rw [hrun]
          exact hIH.2.1
        · rw [hrun, hIH.2.2,
            show precsOf (Elem.Expr (FruExpression.Binary op e b) :: rest2) =
              precsOf rest2 from precsOf_cons_expr _ _,
            show precsOf (Elem.Expr e :: Elem.BinOp op p ::
                Elem.Expr b :: rest2) = p :: precsOf rest2 from by
              rw [precsOf_cons_expr, precsOf_cons_binop, precsOf_cons_expr],
            List.filter_cons]
          simp
      · have hIH := ih (Elem.Expr b :: rest2) (by simp at hl ⊢; omega) hr
        have hpre := specBandRun_prefix p (Elem.Expr b :: rest2).length
          (Elem.Expr b :: rest2) (le_refl _) hr e op q hq
        refine ⟨?_, ?_, ?_⟩
        · rw [hpre, bandPass_cons, passAux_skip_op p q hq, passAux_skip_expr,
            passAux_acc p rest2.length rest2 (le_refl _) (.Expr b)
              [Elem.BinOp op q, Elem.Expr e],
            show passAux p (.Expr b) rest2 [] =
              bandPass p (Elem.Expr b :: rest2) from (bandPass_cons _ _ _).symm,
            hIH.1]
          simp
        · rw [hpre]
          exact Alt.cons e op q _ hIH.2.1
        · rw [hpre, precsOf_cons_expr, precsOf_cons_binop, hIH.2.2,
            precsOf_cons_expr,
            show precsOf (Elem.Expr e :: Elem.BinOp op q ::
                Elem.Expr b :: rest2) = q :: precsOf rest2 from by
              rw [precsOf_cons_expr, precsOf_cons_binop, precsOf_cons_expr],
            List.filter_cons]
          simp [hq]

theorem foldBands_spec :
    ∀ (bands : List Int) (l : List Elem), Alt l →
      List.foldlM (fun cur p => bandPass p cur) l bands =
        some (specReduce bands l) ∧
      Alt (specReduce bands l) ∧
      ∀ x ∈ precsOf (specReduce bands l), x ∈ precsOf l ∧ x ∉ bands := by
  intro bands
  induction bands with
  | nil =>
    intro l hAlt
    refine ⟨rfl, hAlt, ?_⟩
    intro x hx
    exact ⟨hx, by simp⟩
  | cons b bs ih =>
    intro l hAlt
    have hA := bandPass_spec b l.length l (le_refl _) hAlt
    have hIH := ih (specBandRun b l) hA.2.1
    have hred : specReduce (b :: bs) l = specReduce bs (specBandRun b l) := by
      simp [specReduce]
    refine ⟨?_, ?_, ?_⟩
    · rw [hred]
      simp only [List.foldlM_cons, hA.1, Option.bind_some]
      exact hIH.1
    · rw [hred]
      exact hIH.2.1
    · rw [hred]
      intro x hx
      obtain ⟨hx1, hx2⟩ := hIH.2.2 x hx
      rw [hA.2.2] at hx1
      rw [List.mem_filter] at hx1
      refine ⟨hx1.1, ?_⟩
      have hxb : x ≠ b := by simpa using hx1.2
      simp [List.mem_cons, hxb, hx2]

theorem mem_insertSorted (x a : Int) (l : List Int) :
    x ∈ insertSorted a l ↔ x = a ∨ x ∈ l := by
  induction l with
  | nil => simp [insertSorted]
  | cons y ys ih =>
    rw [insertSorted]
    by_cases h1 : a < y
    · simp [h1, List.mem_cons]
    · by_cases h2 : a = y
      · subst h2
        simp [h1, List.mem_cons]
      · simp [h1, h2, List.mem_cons, ih]
        tauto

theorem mem_sortedPrecs (x : Int) (l : List Elem) (h : x ∈ precsOf l) :
    x ∈ sortedPrecs l := by
  rw [sortedPrecs]
  have hstep : ∀ (qs : List Int) (acc : List Int), (x ∈ acc ∨ x ∈ qs) →
      x ∈ qs.foldl (fun acc q => insertSorted q acc) acc := by
    intro qs
    induction qs with
    | nil =>
      intro acc h2
      simpa using h2
    | cons q0 qs2 ih =>
      intro acc h2
      rw [List.foldl_cons]
      apply ih
      rcases h2 with h2 | h2
      · exact Or.inl ((mem_insertSorted x q0 acc).mpr (Or.inr h2))
      · rcases List.mem_cons.mp h2 with h3 | h3
        · exact Or.inl ((mem_insertSorted x q0 acc).mpr (Or.inl h3))
        · exact Or.inr h3
  exact hstep (precsOf l) [] (Or.inr h)

theorem Alt_no_ops {m : List Elem} (hAlt : Alt m) (h : precsOf m = []) :
    ∃ e, m = [Elem.Expr e] := by
  cases hAlt with
  | single e => exact ⟨e, rfl⟩
  | cons e op q rest hr =>
    exfalso
    rw [precsOf_cons_expr, precsOf_cons_binop] at h
    simp at h

/-- C2 fails as stated: with binding power in its standard sense — the `*`,`/` band
binds tighter than the `+`,`-` band — reducing bands from lowest to highest binding
power means processing the additive band first; on the flat sequence `2 + 3 * 4 - 1`
this produces the tree `(2+3) * (4-1)`, while the code's lowering produces
`(2 + (3*4)) - 1`, a different tree. -/
theorem c2_counterexample_lowest_binding_first :
    specReduceLowestBindingFirst seq2341 =
      [Elem.Expr (.Binary ⟨"*"⟩
        (.Binary ⟨"+"⟩ (.Literal (.Number 2)) (.Literal (.Number 3)))
        (.Binary ⟨"-"⟩ (.Literal (.Number 4)) (.Literal (.Number 1))))] ∧
    resolveBinaries seq2341 =
      some (.Binary ⟨"-"⟩
        (.Binary ⟨"+"⟩ (.Literal (.Number 2))
          (.Binary ⟨"*"⟩ (.Literal (.Number 3)) (.Literal (.Number 4))))
        (.Literal (.Number 1))) ∧
    FruExpression.Binary ⟨"*"⟩
        (.Binary ⟨"+"⟩ (.Literal (.Number 2)) (.Literal (.Number 3)))
        (.Binary ⟨"-"⟩ (.Literal (.Number 4)) (.Literal (.Number 1))) ≠
      FruExpression.Binary ⟨"-"⟩
        (.Binary ⟨"+"⟩ (.Literal (.Number 2))
          (.Binary ⟨"*"⟩ (.Literal (.Number 3)) (.Literal (.Number 4))))
        (.Literal (.Number 1)) := by
  refine ⟨rfl, rfl, ?_⟩
  intro hcontra
  injection hcontra with h1 h2 h3
  exact absurd h1 (by decide)

/-- C2 amended: for every flat alternating sequence (with an arbitrary number of
distinct precedence bands, including a single operator), the lowering is equivalent
to reducing the sequence band by band from HIGHEST to LOWEST binding power (ascending
integer precedence level, the tighter-binding band having the smaller level), within
one band replacing adjacent expr-op-expr triples strictly left to right, until one
expression remains; the lowering returns exactly that expression. -/
theorem c2_amended_highest_binding_first (l : List Elem) (h : Alt l) :
    ∃ e, specReduceHighestBindingFirst l = [Elem.Expr e] ∧
      resolveBinaries l = some e := by
  have hD := foldBands_spec (sortedPrecs l) l h
  have hprecs : precsOf (specReduce (sortedPrecs l) l) = [] := by
    rw [List.eq_nil_iff_forall_not_mem]
    intro x hx
    obtain ⟨hx1, hx2⟩ := hD.2.2 x hx
    exact hx2 (mem_sortedPrecs x l hx1)
  obtain ⟨e, he⟩ := Alt_no_ops hD.2.1 hprecs
  refine ⟨e, ?_, ?_⟩
  · rw [specReduceHighestBindingFirst, he]
  · rw [resolveBinaries, hD.1, he]
    rfl

theorem c2_amended_highest_binding_first_witness :
    ∃ e, specReduceHighestBindingFirst seq1032 = [Elem.Expr e] ∧
      resolveBinaries seq1032 = some e :=
  c2_amended_highest_binding_first seq1032
    (Alt.cons _ _ _ _ (Alt.cons _ _ _ _ (Alt.single _)))
